import Mathlib

/-!
# Verification of the deep-archive ingestion pipeline

Shallow embedding of the core of the `deep-archive` repository:

* `src/database/repo.rs` — `TransactionManager` (`add`, `flush`) over the
  SQLite schema of `src/database/schema.rs`;
* `src/main.rs` — the processing-pool worker body (MIME detection,
  frame extraction, normalization, record emission);
* `src/ingest/hasher.rs` — `calculate_hash` (mmap vs. buffered read);
* `src/ingest/scanner.rs` — `scan_directory`.

SQLite statement semantics (upsert, `INSERT OR IGNORE`,
`INSERT OR REPLACE`, plain `INSERT`) are embedded as pure functions on an
explicit table state; statement execution failures (I/O faults, injected
constraint violations) are modelled by a step oracle consulted once per
executed statement, and a failed transaction rolls back to the pre-flush
state, which is SQLite's behaviour when a `rusqlite` transaction is
dropped without commit.

`f32` safety scores are never computed with in this subsystem — they are
only stored, compared and replaced — so they are modelled as rationals
(every finite `f32` value is a rational).
-/

/-- One row of the `artifacts` table
(`schema.rs`: id PK, hash_sha256 UNIQUE, original_path, media_type, width, height). -/
structure ArtifactRow where
  id : Nat
  hash_sha256 : String
  original_path : String
  media_type : String
  width : Option Nat
  height : Option Nat
  deriving DecidableEq, Repr

/-- One row of the `tags` table (`schema.rs`: id PK, name UNIQUE). -/
structure TagRow where
  id : Nat
  name : String
  deriving DecidableEq, Repr

/-- The record buffered by the ingest store (`repo.rs::ArtifactRecord`). -/
structure ArtifactRecord where
  hash_sha256 : String
  original_path : String
  media_type : String
  width : Option Nat
  height : Option Nat
  tags : List String
  nsfw_score : Option ℚ
  deriving DecidableEq, Repr

/-- The database state: the five tables of `schema.rs`, plus the next
`INTEGER PRIMARY KEY` rowid for the two tables whose ids are read back.
`artifact_tags` rows are (artifact_id, tag_id) pairs; `safety_scores`
rows are (artifact_id, nsfw_score) pairs; `search_index` rows are
(original_path, tags_concatenated) pairs. -/
structure DBState where
  artifacts : List ArtifactRow
  tags : List TagRow
  artifact_tags : List (Nat × Nat)
  safety_scores : List (Nat × ℚ)
  search_index : List (String × String)
  next_artifact_id : Nat
  next_tag_id : Nat
  deriving DecidableEq, Repr

/-- A freshly created database (after `TransactionManager::new` ran the DDL):
all tables empty, rowids starting at 1. -/
def emptyDB : DBState :=
  ⟨[], [], [], [], [], 1, 1⟩

/-- Statement `stmt_artifact`: `INSERT INTO artifacts ... ON CONFLICT(hash_sha256) DO
UPDATE SET original_path=excluded.original_path RETURNING id`.
Returns the (existing or fresh) artifact id together with the new state. -/
def upsertArtifact (db : DBState) (r : ArtifactRecord) : Nat × DBState :=
  match db.artifacts.find? (fun a => a.hash_sha256 == r.hash_sha256) with
  | some row =>
      (row.id,
       { db with
          artifacts := db.artifacts.map (fun a =>
            if a.hash_sha256 == r.hash_sha256 then
              { a with original_path := r.original_path }
            else a) })
  | none =>
      (db.next_artifact_id,
       { db with
          artifacts := db.artifacts ++
            [⟨db.next_artifact_id, r.hash_sha256, r.original_path,
              r.media_type, r.width, r.height⟩],
          next_artifact_id := db.next_artifact_id + 1 })

/-- Statement `stmt_tag`: `INSERT OR IGNORE INTO tags (name) VALUES (?1)`. -/
def insertTagIgnore (db : DBState) (t : String) : DBState :=
  if db.tags.any (fun tg => tg.name == t) then db
  else
    { db with
       tags := db.tags ++ [⟨db.next_tag_id, t⟩],
       next_tag_id := db.next_tag_id + 1 }

/-- Statement `stmt_get_tag_id`: `SELECT id FROM tags WHERE name = ?1`. -/
def getTagId (db : DBState) (t : String) : Option Nat :=
  (db.tags.find? (fun tg => tg.name == t)).map (·.id)

/-- Statement `stmt_artifact_tag`: `INSERT OR IGNORE INTO artifact_tags (artifact_id,
tag_id) VALUES (?1, ?2)` — the pair is the primary key. -/
def linkTag (db : DBState) (aid tid : Nat) : DBState :=
  if (aid, tid) ∈ db.artifact_tags then db
  else { db with artifact_tags := db.artifact_tags ++ [(aid, tid)] }

/-- Statement `stmt_score`: `INSERT OR REPLACE INTO safety_scores (artifact_id,
nsfw_score) VALUES (?1, ?2)` — artifact_id is the primary key. -/
def replaceScore (db : DBState) (aid : Nat) (s : ℚ) : DBState :=
  if db.safety_scores.any (fun p => p.1 == aid) then
    { db with
       safety_scores := db.safety_scores.map (fun p =>
         if p.1 == aid then (aid, s) else p) }
  else { db with safety_scores := db.safety_scores ++ [(aid, s)] }

/-- Statement `stmt_fts`: `INSERT INTO search_index (original_path, tags_concatenated)
VALUES (?1, ?2)` — an unconditional append. -/
def appendSearchIndex (db : DBState) (path concat : String) : DBState :=
  { db with search_index := db.search_index ++ [(path, concat)] }

/-- The tag loop body of `flush` for one tag string: insert-or-ignore the
tag row, resolve its id, insert-or-ignore the association. -/
def applyTag (db : DBState) (aid : Nat) (t : String) : DBState :=
  let db1 := insertTagIgnore db t
  match getTagId db1 t with
  | some tid => linkTag db1 aid tid
  | none => db1

/-- The pure (fault-free) effect of processing one buffered record inside the
flush transaction, in the statement order of `repo.rs::flush`: artifact
upsert, tag loop, optional safety-score upsert, search-index append. -/
def applyRecord (db : DBState) (r : ArtifactRecord) : DBState :=
  let (aid, db1) := upsertArtifact db r
  let db2 := r.tags.foldl (fun d t => applyTag d aid t) db1
  let db3 :=
    match r.nsfw_score with
    | some s => replaceScore db2 aid s
    | none => db2
  appendSearchIndex db3 r.original_path (String.intercalate " " r.tags)

/-- The pure effect of a committed flush of a whole buffer, in arrival order. -/
def applyBatch (db : DBState) (rs : List ArtifactRecord) : DBState :=
  rs.foldl applyRecord db

/-- A fault-injection oracle: `oracle k = true` means the `k`-th statement
execution (or prepare, or the final commit) of this flush call fails. -/
def StepOracle : Type := Nat → Bool

/-- The fault-free oracle: every statement succeeds. -/
def noFault : StepOracle := fun _ => false

/-- The tag loop of `flush` under fault injection: for each tag, three
statement executions (`stmt_tag`, `stmt_get_tag_id`, `stmt_artifact_tag`),
each of which may fail; `stmt_get_tag_id` also fails if no row comes back. -/
def runTags (oracle : StepOracle) (aid : Nat) :
    List String → DBState → Nat → Except Unit (DBState × Nat)
  | [], db, k => .ok (db, k)
  | t :: ts, db, k =>
    if oracle k then .error ()
    else
      let db1 := insertTagIgnore db t
      if oracle (k + 1) then .error ()
      else
        match getTagId db1 t with
        | none => .error ()
        | some tid =>
          if oracle (k + 2) then .error ()
          else runTags oracle aid ts (linkTag db1 aid tid) (k + 3)

/-- Processing of one buffered record inside the transaction under fault
injection, counting statement executions. -/
def runRecord (oracle : StepOracle) (r : ArtifactRecord) (db : DBState)
    (k : Nat) : Except Unit (DBState × Nat) :=
  if oracle k then .error ()
  else
    let (aid, db1) := upsertArtifact db r
    match runTags oracle aid r.tags db1 (k + 1) with
    | .error e => .error e
    | .ok (db2, k2) =>
      match r.nsfw_score with
      | some s =>
        if oracle k2 then .error ()
        else
          if oracle (k2 + 1) then .error ()
          else .ok (appendSearchIndex (replaceScore db2 aid s)
                      r.original_path (String.intercalate " " r.tags),
                    k2 + 2)
      | none =>
        if oracle k2 then .error ()
        else .ok (appendSearchIndex db2
                    r.original_path (String.intercalate " " r.tags),
                  k2 + 1)

/-- The record loop of the flush transaction under fault injection. -/
def runBatch (oracle : StepOracle) :
    List ArtifactRecord → DBState → Nat → Except Unit (DBState × Nat)
  | [], db, k => .ok (db, k)
  | r :: rs, db, k =>
    match runRecord oracle r db k with
    | .error e => .error e
    | .ok (db1, k1) => runBatch oracle rs db1 k1

/-- The `TransactionManager`'s observable state: the connection's database,
the record buffer, and the buffer limit (1000 in `new`). -/
structure TMState where
  db : DBState
  buffer : List ArtifactRecord
  buffer_limit : Nat
  deriving DecidableEq, Repr

/-- The flush operation `TransactionManager::flush` under fault injection. Empty buffer: no-op.
Otherwise: six statement prepares (steps 0–5), the record loop (steps from 6),
and the commit (one more step). When anything fails the transaction is
dropped uncommitted — SQLite rolls it back, so the database and the buffer
are exactly as before the call; on commit the buffer is cleared. -/
def flushRun (oracle : StepOracle) (s : TMState) : Except Unit Unit × TMState :=
  if s.buffer.isEmpty then (.ok (), s)
  else
    if ((List.range 6).all fun i => !oracle i) = false then (.error (), s)
    else
      match runBatch oracle s.buffer s.db 6 with
      | .error _ => (.error (), s)
      | .ok (db1, k1) =>
        if oracle k1 then (.error (), s)
        else (.ok (), ⟨db1, [], s.buffer_limit⟩)

/-- The add operation `TransactionManager::add`: push the record; flush when the buffer has
reached the configured capacity. -/
def addRun (oracle : StepOracle) (s : TMState) (r : ArtifactRecord) :
    Except Unit Unit × TMState :=
  let s1 : TMState := ⟨s.db, s.buffer ++ [r], s.buffer_limit⟩
  if s1.buffer.length ≥ s1.buffer_limit then flushRun oracle s1
  else (.ok (), s1)

/-- Ingesting a list of records from a fresh database, one committed flush at
a time (the batching does not matter for committed effects, since
`applyBatch` composes over concatenation). -/
def ingestAll (rs : List ArtifactRecord) : DBState :=
  applyBatch emptyDB rs

/-- The artifact row a given hash resolves to, if any. -/
def artifactFor (db : DBState) (h : String) : Option ArtifactRow :=
  db.artifacts.find? (fun a => a.hash_sha256 == h)

deriving instance DecidableEq for Except

/-! ## The processing-pool worker (`main.rs`, worker loop body) -/

/-- Rust `str::starts_with`: the pattern's characters are an initial segment of
the string's characters. -/
def strStartsWith (s pat : String) : Bool :=
  s.data.take pat.data.length == pat.data

/-- A hashed job on the Hasher→Processing channel (`main.rs::MediaJob`). -/
structure MediaJob where
  path : String
  hash : String
  deriving DecidableEq, Repr

/-- The outcomes of one job's external collaborator calls, as seen by the
worker: the `detect_mimetype` result, the `extract_frames` result (raw RGB
bytes), whether the inference engine initialized (`Option<InferenceEngine>`),
and the two normalization results. Modelled from the spec at the collaborator
boundary (the collaborators are single-call wrappers around external tools);
the worker's own control flow over these outcomes is translated from
`main.rs`. -/
structure JobEnv where
  mimetype : Except Unit String
  frames : Except Unit (List Nat)
  engine : Bool
  nsfwNorm : Except Unit Unit
  taggerNorm : Except Unit Unit
  deriving Repr

/-- The body of the processing worker loop for one dequeued job
(`main.rs` lines 115–184). `ImageBuffer::<Rgb<u8>>::from_raw(224, 224, raw)`
succeeds exactly when the byte container is large enough for a 224×224
RGB24 frame (224·224·3 bytes). The simulated inference values are
`Some(0.01)` and the tag `"simulated_tag"`. -/
def processJob (env : JobEnv) (job : MediaJob) : ArtifactRecord :=
  let media_type :=
    match env.mimetype with
    | .ok m => m
    | .error _ => "application/octet-stream"
  let enrich : List String × Option ℚ :=
    if strStartsWith media_type "video/" || strStartsWith media_type "image/" then
      match env.frames with
      | .ok raw =>
        if 224 * 224 * 3 ≤ raw.length then
          if env.engine then
            let score :=
              match env.nsfwNorm with
              | .ok _ => some ((1 : ℚ) / 100)
              | .error _ => none
            let tg :=
              match env.taggerNorm with
              | .ok _ => ["simulated_tag"]
              | .error _ => ([] : List String)
            (tg, score)
          else ([], none)
        else ([], none)
      | .error _ => ([], none)
    else ([], none)
  { hash_sha256 := job.hash
    original_path := job.path
    media_type := media_type
    width := some 224
    height := some 224
    tags := enrich.1
    nsfw_score := enrich.2 }

/-- A worker's whole run over its stream of dequeued jobs: one record is sent
per job (`tx.send(record)` at the end of each loop iteration). -/
def workerRun (envOf : MediaJob → JobEnv) (jobs : List MediaJob) :
    List ArtifactRecord :=
  jobs.map (fun j => processJob (envOf j) j)

/-! ## The scanner (`scanner.rs::scan_directory`) -/

/-- A directory entry yielded by the (hidden-filtered) walker: its path and
whether it is a regular file. -/
structure ScanEntry where
  path : String
  is_file : Bool
  deriving DecidableEq, Repr

/-- The `scan_directory` loop over the walker's yields. A traversal error is
returned immediately (`let entry = entry?`). A file path is sent on the
channel; if the send fails (receiver gone, `sendClosed` at the number of
sends so far), the loop breaks and the function returns `Ok(())`. -/
def scanLoop (sendClosed : Nat → Bool) :
    List (Except String ScanEntry) → List String →
    Except String Unit × List String
  | [], acc => (.ok (), acc)
  | .error e :: _, acc => (.error e, acc)
  | .ok ent :: rest, acc =>
    if ent.is_file then
      if sendClosed acc.length then (.ok (), acc)
      else scanLoop sendClosed rest (acc ++ [ent.path])
    else scanLoop sendClosed rest acc

/-- Function `scan_directory`: returns the walk result and the list of emitted paths. -/
def scanDirectory (entries : List (Except String ScanEntry))
    (sendClosed : Nat → Bool) : Except String Unit × List String :=
  scanLoop sendClosed entries []

/-- The file paths among a prefix of walker yields (what the loop emits when
nothing fails and the channel stays open). -/
def filesOf (entries : List (Except String ScanEntry)) : List String :=
  entries.filterMap (fun x =>
    match x with
    | .ok ent => if ent.is_file then some ent.path else none
    | .error _ => none)

/-! ## The content hasher (`hasher.rs::calculate_hash`)

`calculate_hash` feeds the file's bytes to a SHA-256 digest either as one
mapped region or as a stream of 8 KiB chunks, then hex-encodes the 32-byte
result. SHA-256 itself (the `sha2` crate) and `hex::encode` are external;
they are embedded concretely (FIPS 180-4 over byte lists, bytes as naturals
below 256, words as naturals reduced mod 2^32). -/

/-- Truncation to a 32-bit word. -/
def w32 (n : Nat) : Nat := n % 4294967296

/-- Right rotation of a 32-bit word (for `x < 2^32`). -/
def rotr32 (x n : Nat) : Nat := w32 (x >>> n ||| x <<< (32 - n))

/-- Complement of a 32-bit word. -/
def not32 (x : Nat) : Nat := x ^^^ 4294967295

/-- SHA-256 `Ch(e,f,g)`. -/
def ch32 (e f g : Nat) : Nat := (e &&& f) ^^^ (not32 e &&& g)

/-- SHA-256 `Maj(a,b,c)`. -/
def maj32 (a b c : Nat) : Nat := (a &&& b) ^^^ (a &&& c) ^^^ (b &&& c)

/-- SHA-256 Σ₀. -/
def bsig0 (x : Nat) : Nat := rotr32 x 2 ^^^ rotr32 x 13 ^^^ rotr32 x 22

/-- SHA-256 Σ₁. -/
def bsig1 (x : Nat) : Nat := rotr32 x 6 ^^^ rotr32 x 11 ^^^ rotr32 x 25

/-- SHA-256 σ₀. -/
def ssig0 (x : Nat) : Nat := rotr32 x 7 ^^^ rotr32 x 18 ^^^ (x >>> 3)

/-- SHA-256 σ₁. -/
def ssig1 (x : Nat) : Nat := rotr32 x 17 ^^^ rotr32 x 19 ^^^ (x >>> 10)

/-- The SHA-256 round constants. -/
def sha256K : List Nat :=
  [1116352408, 1899447441, 3049323471, 3921009573, 961987163, 1508970993,
   2453635748, 2870763221, 3624381080, 310598401, 607225278, 1426881987,
   1925078388, 2162078206, 2614888103, 3248222580, 3835390401, 4022224774,
   264347078, 604807628, 770255983, 1249150122, 1555081692, 1996064986,
   2554220882, 2821834349, 2952996808, 3210313671, 3336571891, 3584528711,
   113926993, 338241895, 666307205, 773529912, 1294757372, 1396182291,
   1695183700, 1986661051, 2177026350, 2456956037, 2730485921, 2820302411,
   3259730800, 3345764771, 3516065817, 3600352804, 4094571909, 275423344,
   430227734, 506948616, 659060556, 883997877, 958139571, 1322822218,
   1537002063, 1747873779, 1955562222, 2024104815, 2227730452, 2361852424,
   2428436474, 2756734187, 3204031479, 3329325298]

/-- The eight SHA-256 working registers. -/
structure Sha256Regs where
  a : Nat
  b : Nat
  c : Nat
  d : Nat
  e : Nat
  f : Nat
  g : Nat
  h : Nat
  deriving DecidableEq, Repr

/-- The SHA-256 initial hash value. -/
def sha256H0 : Sha256Regs :=
  ⟨1779033703, 3144134277, 1013904242, 2773480762,
   1359893119, 2600822924, 528734635, 1541459225⟩

/-- One SHA-256 round, consuming a (round constant, schedule word) pair. -/
def sha256Round (r : Sha256Regs) (kw : Nat × Nat) : Sha256Regs :=
  let t1 := w32 (r.h + bsig1 r.e + ch32 r.e r.f r.g + kw.1 + kw.2)
  let t2 := w32 (bsig0 r.a + maj32 r.a r.b r.c)
  ⟨w32 (t1 + t2), r.a, r.b, r.c, w32 (r.d + t1), r.e, r.f, r.g⟩

/-- The first 16 schedule words of a 64-byte block (big-endian). -/
def sha256Words (block : List Nat) : List Nat :=
  (List.range 16).map (fun i =>
    w32 (block.getD (4 * i) 0 <<< 24 ||| block.getD (4 * i + 1) 0 <<< 16 |||
         block.getD (4 * i + 2) 0 <<< 8 ||| block.getD (4 * i + 3) 0))

/-- The full 64-word message schedule of a block. -/
def sha256Schedule (block : List Nat) : List Nat :=
  (List.range 48).foldl (fun ws _ =>
    ws ++ [w32 (ssig1 (ws.getD (ws.length - 2) 0) + ws.getD (ws.length - 7) 0 +
                ssig0 (ws.getD (ws.length - 15) 0) + ws.getD (ws.length - 16) 0)])
    (sha256Words block)

/-- The SHA-256 compression function for one 64-byte block. -/
def sha256Compress (hs : Sha256Regs) (block : List Nat) : Sha256Regs :=
  let r := (sha256K.zip (sha256Schedule block)).foldl sha256Round hs
  ⟨w32 (hs.a + r.a), w32 (hs.b + r.b), w32 (hs.c + r.c), w32 (hs.d + r.d),
   w32 (hs.e + r.e), w32 (hs.f + r.f), w32 (hs.g + r.g), w32 (hs.h + r.h)⟩

/-- Big-endian bytes of a 64-bit length field. -/
def toBytesBE8 (n : Nat) : List Nat :=
  [n >>> 56 % 256, n >>> 48 % 256, n >>> 40 % 256, n >>> 32 % 256,
   n >>> 24 % 256, n >>> 16 % 256, n >>> 8 % 256, n % 256]

/-- Big-endian bytes of one 32-bit hash word. -/
def toBytesBE4 (n : Nat) : List Nat :=
  [n >>> 24 % 256, n >>> 16 % 256, n >>> 8 % 256, n % 256]

/-- SHA-256 padding: a 0x80 byte, zeros to 56 mod 64, the bit length as a
64-bit big-endian field. -/
def sha256Pad (msg : List Nat) : List Nat :=
  let padZeros := (55 + 64 - msg.length % 64) % 64
  msg ++ [128] ++ List.replicate padZeros 0 ++
    toBytesBE8 ((8 * msg.length) % 18446744073709551616)

/-- Split a list into chunks of `n` (the last one possibly shorter); the
shape of both the hasher's 8 KiB read loop and SHA-256's block split. -/
def chunksOf (n : Nat) : List α → List (List α)
  | [] => []
  | x :: xs =>
    if hn : n = 0 then []
    else (x :: xs).take n :: chunksOf n ((x :: xs).drop n)
termination_by l => l.length
decreasing_by
  simp only [List.length_drop, List.length_cons]
  omega

/-- The SHA-256 digest of a byte list: 32 bytes. -/
def sha256 (msg : List Nat) : List Nat :=
  let fin := (chunksOf 64 (sha256Pad msg)).foldl sha256Compress sha256H0
  toBytesBE4 fin.a ++ toBytesBE4 fin.b ++ toBytesBE4 fin.c ++ toBytesBE4 fin.d ++
  toBytesBE4 fin.e ++ toBytesBE4 fin.f ++ toBytesBE4 fin.g ++ toBytesBE4 fin.h

/-- One byte as two lowercase hex characters, high nibble first
(`hex::encode`). -/
def hexByte (b : Nat) : List Char :=
  [if b / 16 < 10 then Char.ofNat (48 + b / 16) else Char.ofNat (97 + (b / 16 - 10)),
   if b % 16 < 10 then Char.ofNat (48 + b % 16) else Char.ofNat (97 + (b % 16 - 10))]

/-- Hex encoding (`hex::encode`) of a byte list. -/
def hexEncode (bs : List Nat) : String :=
  String.mk (bs.map hexByte).flatten

/-- The mmap read strategy feeds the whole content to the digest in one
`update` call. -/
def mmapAbsorb (content : List Nat) : List Nat := content

/-- The buffered read strategy feeds the content through an 8192-byte buffer,
one `update` per non-empty read; the digest consumes the concatenation of the
chunks. -/
def bufferedAbsorb (content : List Nat) : List Nat :=
  (chunksOf 8192 content).flatten

/-- Threshold `hasher.rs::MMAP_THRESHOLD`: 500 MiB. -/
def MMAP_THRESHOLD : Nat := 500 * 1024 * 1024

/-- A readable file: a path and its byte content (`metadata.len()` is the
content length). -/
structure FileData where
  path : String
  content : List Nat
  deriving Repr

/-- Function `hasher.rs::calculate_hash`: choose the read strategy by file size, feed
the bytes to SHA-256, hex-encode the digest. -/
def calculate_hash (f : FileData) : String :=
  if f.content.length > MMAP_THRESHOLD then hexEncode (sha256 (mmapAbsorb f.content))
  else hexEncode (sha256 (bufferedAbsorb f.content))

/-! ## Specification-side helper functions -/

/-- The update applied by the artifact upsert's conflict branch to each
existing row. -/
def patchRow (r : ArtifactRecord) (a : ArtifactRow) : ArtifactRow :=
  if a.hash_sha256 == r.hash_sha256 then { a with original_path := r.original_path }
  else a

/-- Semantics of `INSERT OR REPLACE` on the bare `safety_scores` row list. -/
def replaceScoreL (l : List (Nat × ℚ)) (aid : Nat) (s : ℚ) : List (Nat × ℚ) :=
  if l.any (fun p => p.1 == aid) then
    l.map (fun p => if p.1 == aid then (aid, s) else p)
  else l ++ [(aid, s)]

/-- The first buffered record carrying a given hash. -/
def firstRec (rs : List ArtifactRecord) (h : String) : Option ArtifactRecord :=
  rs.find? (fun r => r.hash_sha256 == h)

/-- The last buffered record carrying a given hash. -/
def lastRec (rs : List ArtifactRecord) (h : String) : Option ArtifactRecord :=
  rs.reverse.find? (fun r => r.hash_sha256 == h)

/-- The search-index row appended for one flushed record. -/
def searchEntryOf (r : ArtifactRecord) : String × String :=
  (r.original_path, String.intercalate " " r.tags)

/-! ## Concrete inputs used by witnesses and counterexamples -/

/-- A first record for hash `h1`, two tags, a score. -/
def exRecA : ArtifactRecord :=
  ⟨"h1", "/a.jpg", "image/jpeg", some 224, some 224, ["cat", "cute"], some ((1 : ℚ) / 100)⟩

/-- A second record for the same hash `h1` under another path, no score. -/
def exRecB : ArtifactRecord :=
  ⟨"h1", "/b.jpg", "image/jpeg", some 224, some 224, ["cat"], none⟩

/-- A record for a distinct hash `h2`, no tags. -/
def exRecC : ArtifactRecord :=
  ⟨"h2", "/c.txt", "text/plain", none, none, [], none⟩

/-- A store state with a fresh database and three buffered records. -/
def exState : TMState := ⟨emptyDB, [exRecA, exRecB, exRecC], 1000⟩

/-- An oracle that fails the eighth statement execution of a flush
(a mid-batch fault). -/
def exFaultAt7 : StepOracle := fun k => k == 7

/-- Two scored records for the same hash `h3`. -/
def exScore1 : ArtifactRecord :=
  ⟨"h3", "/v1.png", "image/png", some 224, some 224, [], some ((3 : ℚ) / 10)⟩

/-- Second scored record for hash `h3`, a different score. -/
def exScore2 : ArtifactRecord :=
  ⟨"h3", "/v2.png", "image/png", some 224, some 224, [], some ((7 : ℚ) / 10)⟩

/-- A plain-text job. -/
def exJob : MediaJob := ⟨"/r/a.txt", "deadbeef"⟩

/-- An image job. -/
def exJobPng : MediaJob := ⟨"/r/c.png", "cafebabe"⟩

/-- Collaborator outcomes for a plain text file: MIME sniff says
`text/plain`, no decodable frames, no engine. -/
def envText : JobEnv := ⟨.ok "text/plain", .error (), false, .ok (), .ok ()⟩

/-- Collaborator outcomes when the MIME sniff itself fails. -/
def envMimeFail : JobEnv := ⟨.error (), .error (), false, .ok (), .ok ()⟩

/-- Collaborator outcomes for an image whose frame extraction fails. -/
def envDecodeFail : JobEnv := ⟨.ok "image/png", .error (), true, .ok (), .ok ()⟩

/-- Collaborator outcomes for an image whose raw frame buffer is too short
for a 224×224 RGB24 image (reconstruction fails). -/
def envShortRaw : JobEnv := ⟨.ok "image/png", .ok [0, 0, 0], true, .ok (), .ok ()⟩

/-- Collaborator outcomes for a decodable image where only the NSFW
normalization fails. -/
def envNsfwFail : JobEnv :=
  ⟨.ok "image/png", .ok (List.replicate (224 * 224 * 3) 0), true, .error (), .ok ()⟩

/-- Collaborator outcomes for a decodable image where only the tagger
normalization fails. -/
def envTagFail : JobEnv :=
  ⟨.ok "image/png", .ok (List.replicate (224 * 224 * 3) 0), true, .ok (), .error ()⟩

/-- A walker yield sequence: a file, a directory, a traversal error, then a
file that is never reached. -/
def exEntries : List (Except String ScanEntry) :=
  [.ok ⟨"/r/a.txt", true⟩, .ok ⟨"/r/sub", false⟩,
   .error "permission denied", .ok ⟨"/r/b.txt", true⟩]

/-- A receiver that never disconnects. -/
def chanOpen : Nat → Bool := fun _ => false

/-- Two files with identical content under different paths. -/
def exFileA : FileData := ⟨"/x/a.bin", [104, 105]⟩

/-- Second file with the same bytes as `exFileA`. -/
def exFileB : FileData := ⟨"/y/b.bin", [104, 105]⟩

/-- After `INSERT OR IGNORE INTO tags`, a row with the given name exists. -/
theorem getTagId_insertTagIgnore (db : DBState) (t : String) :
    ∃ tid, getTagId (insertTagIgnore db t) t = some tid := by
  unfold insertTagIgnore getTagId
  by_cases hany : db.tags.any (fun tg => tg.name == t)
  · rw [if_pos hany]
    obtain ⟨x, hx, hpx⟩ := List.any_eq_true.mp hany
    have hs : (db.tags.find? (fun tg => tg.name == t)).isSome :=
      List.find?_isSome.mpr ⟨x, hx, hpx⟩
    obtain ⟨y, hy⟩ := Option.isSome_iff_exists.mp hs
    exact ⟨y.id, by rw [hy]; rfl⟩
  · rw [if_neg hany]
    have hnone : db.tags.find? (fun tg => tg.name == t) = none :=
      List.find?_eq_none.mpr (fun x hx hpx => hany (List.any_eq_true.mpr ⟨x, hx, hpx⟩))
    simp [List.find?_append, hnone]

/-- A fault-free pass of the tag loop computes the pure tag fold. -/
theorem runTags_ok (oracle : StepOracle) (aid : Nat) (ts : List String) :
    ∀ (db : DBState) (k : Nat) (db' : DBState) (k' : Nat),
      runTags oracle aid ts db k = .ok (db', k') →
      db' = ts.foldl (fun d t => applyTag d aid t) db := by
  induction ts with
  | nil =>
    intro db k db' k' h
    simp only [runTags, Except.ok.injEq, Prod.mk.injEq] at h
    simp [h.1]
  | cons t ts ih =>
    intro db k db' k' h
    simp only [runTags] at h
    by_cases h0 : oracle k
    · simp [h0] at h
    · rw [if_neg h0] at h
      by_cases h1 : oracle (k + 1)
      · simp [h1] at h
      · rw [if_neg h1] at h
        rcases hg : getTagId (insertTagIgnore db t) t with _ | tid
        · rw [hg] at h; exact absurd h (by simp)
        · rw [hg] at h
          dsimp only at h
          by_cases h2 : oracle (k + 2)
          · simp [h2] at h
          · rw [if_neg h2] at h
            have := ih _ _ _ _ h
            simp only [List.foldl_cons, applyTag, hg]
            exact this

/-- A fault-free pass over one record computes the pure `applyRecord`. -/
theorem runRecord_ok (oracle : StepOracle) (r : ArtifactRecord)
    (db : DBState) (k : Nat) (db' : DBState) (k' : Nat)
    (h : runRecord oracle r db k = .ok (db', k')) :
    db' = applyRecord db r := by
  unfold runRecord at h
  by_cases h0 : oracle k
  · simp [h0] at h
  · rw [if_neg h0] at h
    rcases hu : upsertArtifact db r with ⟨aid, db1⟩
    rw [hu] at h
    dsimp only at h
    rcases hrt : runTags oracle aid r.tags db1 (k + 1) with e | ⟨db2, k2⟩
    · rw [hrt] at h; exact absurd h (by simp)
    · rw [hrt] at h
      dsimp only at h
      have hdb2 := runTags_ok oracle aid r.tags db1 (k + 1) db2 k2 hrt
      rcases hs : r.nsfw_score with _ | s
      · rw [hs] at h
        dsimp only at h
        by_cases h2 : oracle k2
        · simp [h2] at h
        · rw [if_neg h2] at h
          simp only [Except.ok.injEq, Prod.mk.injEq] at h
          rw [← h.1, hdb2]
          simp [applyRecord, hu, hs]
      · rw [hs] at h
        dsimp only at h
        by_cases h2 : oracle k2
        · simp [h2] at h
        · rw [if_neg h2] at h
          by_cases h3 : oracle (k2 + 1)
          · simp [h3] at h
          · rw [if_neg h3] at h
            simp only [Except.ok.injEq, Prod.mk.injEq] at h
            rw [← h.1, hdb2]
            simp [applyRecord, hu, hs]

/-- A fault-free pass over the whole buffer computes the pure batch fold. -/
theorem runBatch_ok (oracle : StepOracle) (rs : List ArtifactRecord) :
    ∀ (db : DBState) (k : Nat) (db' : DBState) (k' : Nat),
      runBatch oracle rs db k = .ok (db', k') →
      db' = applyBatch db rs := by
  induction rs with
  | nil =>
    intro db k db' k' h
    simp only [runBatch, Except.ok.injEq, Prod.mk.injEq] at h
    simp [applyBatch, h.1]
  | cons r rs ih =>
    intro db k db' k' h
    simp only [runBatch] at h
    rcases hr : runRecord oracle r db k with e | ⟨db1, k1⟩
    · rw [hr] at h; exact absurd h (by simp)
    · rw [hr] at h
      dsimp only at h
      have h1 := runRecord_ok oracle r db k db1 k1 hr
      have h2 := ih _ _ _ _ h
      rw [h2, h1]
      simp [applyBatch]

/-- Under the fault-free oracle the tag loop always succeeds, computing the
pure fold. -/
theorem runTags_noFault (aid : Nat) (ts : List String) :
    ∀ (db : DBState) (k : Nat), ∃ k',
      runTags noFault aid ts db k =
        .ok (ts.foldl (fun d t => applyTag d aid t) db, k') := by
  induction ts with
  | nil => intro db k; exact ⟨k, rfl⟩
  | cons t ts ih =>
    intro db k
    obtain ⟨tid, hg⟩ := getTagId_insertTagIgnore db t
    obtain ⟨k', hk⟩ := ih (linkTag (insertTagIgnore db t) aid tid) (k + 3)
    refine ⟨k', ?_⟩
    have happ : applyTag db aid t = linkTag (insertTagIgnore db t) aid tid := by
      simp [applyTag, hg]
    simp only [runTags, noFault, Bool.false_eq_true, if_false, hg,
      List.foldl_cons, happ]
    exact hk

/-- Under the fault-free oracle one record's pass always succeeds. -/
theorem runRecord_noFault (r : ArtifactRecord) (db : DBState) (k : Nat) :
    ∃ k', runRecord noFault r db k = .ok (applyRecord db r, k') := by
  rcases hu : upsertArtifact db r with ⟨aid, db1⟩
  obtain ⟨k2, hk2⟩ := runTags_noFault aid r.tags db1 (k + 1)
  rcases hs : r.nsfw_score with _ | sc
  · refine ⟨k2 + 1, ?_⟩
    simp only [runRecord, noFault, Bool.false_eq_true, if_false, hu, hk2, hs]
    simp [applyRecord, hu, hs]
  · refine ⟨k2 + 2, ?_⟩
    simp only [runRecord, noFault, Bool.false_eq_true, if_false, hu, hk2, hs]
    simp [applyRecord, hu, hs]

/-- Under the fault-free oracle the batch pass always succeeds. -/
theorem runBatch_noFault (rs : List ArtifactRecord) :
    ∀ (db : DBState) (k : Nat), ∃ k',
      runBatch noFault rs db k = .ok (applyBatch db rs, k') := by
  induction rs with
  | nil => intro db k; exact ⟨k, rfl⟩
  | cons r rs ih =>
    intro db k
    obtain ⟨k1, hk1⟩ := runRecord_noFault r db k
    obtain ⟨k', hk'⟩ := ih (applyRecord db r) k1
    refine ⟨k', ?_⟩
    simp only [runBatch, hk1]
    simpa [applyBatch] using hk'

/-- A fault-free flush always commits: it applies the pure batch effect and
clears the buffer. -/
theorem flushRun_noFault (s : TMState) :
    flushRun noFault s = (.ok (), ⟨applyBatch s.db s.buffer, [], s.buffer_limit⟩) := by
  unfold flushRun
  by_cases he : s.buffer.isEmpty
  · rw [if_pos he]
    have hb : s.buffer = [] := List.isEmpty_iff.mp he
    cases s
    simp_all [applyBatch]
  · rw [if_neg he]
    obtain ⟨k', hk'⟩ := runBatch_noFault s.buffer s.db 6
    rw [if_neg (by simp [noFault])]
    rw [hk']
    simp [noFault]

/-- Every flush call lands in one of three cases: empty-buffer no-op, failed
and rolled back, or committed with the pure batch effect and a cleared
buffer. -/
theorem flushRun_cases (oracle : StepOracle) (s : TMState) :
    (s.buffer = [] ∧ flushRun oracle s = (.ok (), s)) ∨
    flushRun oracle s = (.error (), s) ∨
    flushRun oracle s = (.ok (), ⟨applyBatch s.db s.buffer, [], s.buffer_limit⟩) := by
  unfold flushRun
  by_cases he : s.buffer.isEmpty
  · left; exact ⟨List.isEmpty_iff.mp he, by rw [if_pos he]⟩
  · rw [if_neg he]
    by_cases hp : ((List.range 6).all fun i => !oracle i) = false
    · right; left; rw [if_pos hp]
    · rw [if_neg hp]
      rcases hb : runBatch oracle s.buffer s.db 6 with e | ⟨db1, k1⟩
      · right; left; rfl
      · have hpure := runBatch_ok oracle s.buffer s.db 6 db1 k1 hb
        by_cases hc : oracle k1
        · right; left; simp [hc]
        · right; right; simp [hc, hpure]

/-- The statement `INSERT OR IGNORE INTO tags` touches only the tags table and its rowid. -/
theorem insertTagIgnore_frame (db : DBState) (t : String) :
    (insertTagIgnore db t).artifacts = db.artifacts ∧
    (insertTagIgnore db t).artifact_tags = db.artifact_tags ∧
    (insertTagIgnore db t).safety_scores = db.safety_scores ∧
    (insertTagIgnore db t).search_index = db.search_index ∧
    (insertTagIgnore db t).next_artifact_id = db.next_artifact_id := by
  unfold insertTagIgnore; split <;> simp

/-- The association insert touches only `artifact_tags`. -/
theorem linkTag_frame (db : DBState) (aid tid : Nat) :
    (linkTag db aid tid).artifacts = db.artifacts ∧
    (linkTag db aid tid).tags = db.tags ∧
    (linkTag db aid tid).safety_scores = db.safety_scores ∧
    (linkTag db aid tid).search_index = db.search_index ∧
    (linkTag db aid tid).next_artifact_id = db.next_artifact_id ∧
    (linkTag db aid tid).next_tag_id = db.next_tag_id := by
  unfold linkTag; split <;> simp

/-- The score upsert touches only `safety_scores`. -/
theorem replaceScore_frame (db : DBState) (aid : Nat) (s : ℚ) :
    (replaceScore db aid s).artifacts = db.artifacts ∧
    (replaceScore db aid s).tags = db.tags ∧
    (replaceScore db aid s).artifact_tags = db.artifact_tags ∧
    (replaceScore db aid s).search_index = db.search_index ∧
    (replaceScore db aid s).next_artifact_id = db.next_artifact_id ∧
    (replaceScore db aid s).next_tag_id = db.next_tag_id := by
  unfold replaceScore; split <;> simp

/-- The artifact upsert touches only `artifacts` and its rowid. -/
theorem upsertArtifact_frame (db : DBState) (r : ArtifactRecord) :
    (upsertArtifact db r).2.tags = db.tags ∧
    (upsertArtifact db r).2.artifact_tags = db.artifact_tags ∧
    (upsertArtifact db r).2.safety_scores = db.safety_scores ∧
    (upsertArtifact db r).2.search_index = db.search_index ∧
    (upsertArtifact db r).2.next_tag_id = db.next_tag_id := by
  unfold upsertArtifact; split <;> simp

/-- The whole tag-loop step touches neither the artifacts, scores nor
search-index tables. -/
theorem applyTag_frame (db : DBState) (aid : Nat) (t : String) :
    (applyTag db aid t).artifacts = db.artifacts ∧
    (applyTag db aid t).safety_scores = db.safety_scores ∧
    (applyTag db aid t).search_index = db.search_index ∧
    (applyTag db aid t).next_artifact_id = db.next_artifact_id := by
  simp only [applyTag]
  rcases hg : getTagId (insertTagIgnore db t) t with _ | tid
  · exact ⟨(insertTagIgnore_frame db t).1, (insertTagIgnore_frame db t).2.2.1,
      (insertTagIgnore_frame db t).2.2.2.1, (insertTagIgnore_frame db t).2.2.2.2⟩
  · have h1 := insertTagIgnore_frame db t
    have h2 := linkTag_frame (insertTagIgnore db t) aid tid
    exact ⟨h2.1.trans h1.1, h2.2.2.1.trans h1.2.2.1,
      h2.2.2.2.1.trans h1.2.2.2.1, h2.2.2.2.2.1.trans h1.2.2.2.2⟩

/-- The record's full tag fold touches neither artifacts, scores nor the
search index. -/
theorem foldTags_frame (aid : Nat) (ts : List String) :
    ∀ db : DBState,
      ((ts.foldl (fun d t => applyTag d aid t) db).artifacts = db.artifacts ∧
       (ts.foldl (fun d t => applyTag d aid t) db).safety_scores = db.safety_scores ∧
       (ts.foldl (fun d t => applyTag d aid t) db).search_index = db.search_index ∧
       (ts.foldl (fun d t => applyTag d aid t) db).next_artifact_id = db.next_artifact_id) := by
  induction ts with
  | nil => intro db; simp
  | cons t ts ih =>
    intro db
    have h1 := applyTag_frame db aid t
    have h2 := ih (applyTag db aid t)
    simp only [List.foldl_cons]
    exact ⟨h2.1.trans h1.1, h2.2.1.trans h1.2.1, h2.2.2.1.trans h1.2.2.1,
      h2.2.2.2.trans h1.2.2.2⟩

/-- The function `replaceScore` acts on the bare score list as `replaceScoreL`. -/
theorem replaceScore_scores (db : DBState) (aid : Nat) (s : ℚ) :
    (replaceScore db aid s).safety_scores = replaceScoreL db.safety_scores aid s := by
  by_cases hc : db.safety_scores.any (fun p => p.1 == aid) <;>
    simp [replaceScore, replaceScoreL, hc]

/-- Only the artifact upsert of a record's pass changes the artifacts table. -/
theorem applyRecord_artifacts (db : DBState) (r : ArtifactRecord) :
    (applyRecord db r).artifacts = (upsertArtifact db r).2.artifacts := by
  simp only [applyRecord]
  rcases hu : upsertArtifact db r with ⟨aid, db1⟩
  rcases r.nsfw_score with _ | s
  · simp only [appendSearchIndex]
    exact (foldTags_frame aid r.tags db1).1
  · simp only [appendSearchIndex]
    exact ((replaceScore_frame _ aid s).1).trans (foldTags_frame aid r.tags db1).1

/-- A record's pass appends exactly its own search-index entry. -/
theorem applyRecord_search_index (db : DBState) (r : ArtifactRecord) :
    (applyRecord db r).search_index = db.search_index ++ [searchEntryOf r] := by
  simp only [applyRecord, searchEntryOf]
  rcases hu : upsertArtifact db r with ⟨aid, db1⟩
  have hup := upsertArtifact_frame db r
  rw [hu] at hup
  rcases r.nsfw_score with _ | s
  · simp only [appendSearchIndex]
    rw [(foldTags_frame aid r.tags db1).2.2.1, hup.2.2.2.1]
  · simp only [appendSearchIndex]
    rw [(replaceScore_frame _ aid s).2.2.2.1,
      (foldTags_frame aid r.tags db1).2.2.1, hup.2.2.2.1]

/-- A record's pass changes the score table exactly by its optional score
upsert, keyed by the upserted artifact's id. -/
theorem applyRecord_safety_scores (db : DBState) (r : ArtifactRecord) :
    (applyRecord db r).safety_scores =
      match r.nsfw_score with
      | some s => replaceScoreL db.safety_scores (upsertArtifact db r).1 s
      | none => db.safety_scores := by
  simp only [applyRecord]
  rcases hu : upsertArtifact db r with ⟨aid, db1⟩
  have hup := upsertArtifact_frame db r
  rw [hu] at hup
  have hft := (foldTags_frame aid r.tags db1).2.1
  rcases r.nsfw_score with _ | s
  · simp only [appendSearchIndex]
    rw [hft, hup.2.2.1]
  · simp only [appendSearchIndex]
    rw [replaceScore_scores, hft, hup.2.2.1]

/-- The patch `patchRow` never changes a row's hash. -/
theorem patchRow_hash (r : ArtifactRecord) (a : ArtifactRow) :
    (patchRow r a).hash_sha256 = a.hash_sha256 := by
  unfold patchRow; split <;> rfl

/-- The patch `patchRow` never changes a row's id, media type or dimensions. -/
theorem patchRow_keeps (r : ArtifactRecord) (a : ArtifactRow) :
    (patchRow r a).id = a.id ∧ (patchRow r a).media_type = a.media_type ∧
    (patchRow r a).width = a.width ∧ (patchRow r a).height = a.height := by
  unfold patchRow; split <;> simp

/-- On a hash conflict the upsert returns the existing row's id and patches
`original_path` in place. -/
theorem upsertArtifact_found (db : DBState) (r : ArtifactRecord)
    (row : ArtifactRow) (hf : artifactFor db r.hash_sha256 = some row) :
    upsertArtifact db r =
      (row.id, { db with artifacts := db.artifacts.map (patchRow r) }) := by
  unfold upsertArtifact
  unfold artifactFor at hf
  rw [hf]
  rfl

/-- On a fresh hash the upsert appends a new row with the next rowid. -/
theorem upsertArtifact_new (db : DBState) (r : ArtifactRecord)
    (hf : artifactFor db r.hash_sha256 = none) :
    upsertArtifact db r =
      (db.next_artifact_id,
       { db with
          artifacts := db.artifacts ++
            [⟨db.next_artifact_id, r.hash_sha256, r.original_path,
              r.media_type, r.width, r.height⟩],
          next_artifact_id := db.next_artifact_id + 1 }) := by
  unfold upsertArtifact
  unfold artifactFor at hf
  rw [hf]

/-- Looking a hash up in a patched table is looking it up, then patching. -/
theorem find?_map_patchRow (l : List ArtifactRow) (r : ArtifactRecord)
    (h : String) :
    (l.map (patchRow r)).find? (fun a => a.hash_sha256 == h) =
      (l.find? (fun a => a.hash_sha256 == h)).map (patchRow r) := by
  have hp : ((fun a => a.hash_sha256 == h) ∘ patchRow r) =
      (fun a : ArtifactRow => a.hash_sha256 == h) := by
    funext a
    simp [Function.comp, patchRow_hash]
  rw [List.find?_map, hp]

/-- In a table whose hashes are distinct, every row is the row its own hash
resolves to. -/
theorem find?_of_mem_nodup (l : List ArtifactRow)
    (hnd : (l.map (fun a => a.hash_sha256)).Nodup) (a : ArtifactRow)
    (ha : a ∈ l) :
    l.find? (fun x => x.hash_sha256 == a.hash_sha256) = some a := by
  induction l with
  | nil => cases ha
  | cons b l ih =>
    simp only [List.map_cons, List.nodup_cons] at hnd
    rcases List.mem_cons.mp ha with rfl | hmem
    · simp [List.find?_cons_eq_some]
    · have hne : b.hash_sha256 ≠ a.hash_sha256 := by
        intro he
        exact hnd.1 (he ▸ List.mem_map_of_mem (fun x => x.hash_sha256) hmem)
      rw [List.find?_cons_of_neg _ (by simp [hne])]
      exact ih hnd.2 hmem

/-- Batching is irrelevant to committed effects: appending one record to the
ingested list applies it last. -/
theorem ingestAll_append_singleton (rs : List ArtifactRecord) (r : ArtifactRecord) :
    ingestAll (rs ++ [r]) = applyRecord (ingestAll rs) r := by
  simp [ingestAll, applyBatch]

/-- The first record for a hash after appending one more record. -/
theorem firstRec_append_singleton (rs : List ArtifactRecord)
    (r : ArtifactRecord) (h : String) :
    firstRec (rs ++ [r]) h =
      (firstRec rs h).or (if r.hash_sha256 == h then some r else none) := by
  simp only [firstRec, List.find?_append]
  congr 1
  rcases hb : r.hash_sha256 == h with _ | _ <;> simp [List.find?, hb]

/-- The last record for a hash after appending one more record. -/
theorem lastRec_append_singleton (rs : List ArtifactRecord)
    (r : ArtifactRecord) (h : String) :
    lastRec (rs ++ [r]) h =
      if r.hash_sha256 == h then some r else lastRec rs h := by
  simp only [lastRec, List.reverse_append, List.reverse_singleton,
    List.singleton_append, List.find?]
  rcases hb : (r.hash_sha256 == h) with _ | _ <;> simp

/-- A row whose hash differs from the record's is left alone by the patch. -/
theorem patchRow_of_ne (r : ArtifactRecord) (a : ArtifactRow)
    (hne : a.hash_sha256 ≠ r.hash_sha256) : patchRow r a = a := by
  unfold patchRow
  rw [if_neg (by simp [hne])]

/-- A row with the record's hash gets the record's path, all else kept. -/
theorem patchRow_of_eq (r : ArtifactRecord) (a : ArtifactRow)
    (he : a.hash_sha256 = r.hash_sha256) :
    patchRow r a = { a with original_path := r.original_path } := by
  unfold patchRow
  rw [if_pos (by simp [he])]

/-- Artifacts-table characterization after ingesting any record list:
hashes are pairwise distinct, a hash resolves to a row exactly when some
ingested record carried it, and that row combines the first such record's
immutable fields with the last such record's path. -/
theorem ingest_artifacts_char (rs : List ArtifactRecord) :
    ((ingestAll rs).artifacts.map (fun a => a.hash_sha256)).Nodup ∧
    ∀ h : String,
      (artifactFor (ingestAll rs) h = none ↔ firstRec rs h = none) ∧
      (∀ a, artifactFor (ingestAll rs) h = some a →
        ∃ f l, firstRec rs h = some f ∧ lastRec rs h = some l ∧
          a.hash_sha256 = h ∧ a.original_path = l.original_path ∧
          a.media_type = f.media_type ∧ a.width = f.width ∧
          a.height = f.height) := by
  induction rs using List.reverseRecOn with
  | nil =>
    refine ⟨by simp [ingestAll, applyBatch, emptyDB], fun h => ⟨?_, ?_⟩⟩
    · simp [ingestAll, applyBatch, emptyDB, artifactFor, firstRec]
    · intro a ha
      simp [ingestAll, applyBatch, emptyDB, artifactFor] at ha
  | append_singleton rs r ih =>
    obtain ⟨ihnd, ihh⟩ := ih
    rw [ingestAll_append_singleton]
    rcases hf : artifactFor (ingestAll rs) r.hash_sha256 with _ | row
    · -- fresh hash: a new row is appended
      have hup := upsertArtifact_new (ingestAll rs) r hf
      have hart : (applyRecord (ingestAll rs) r).artifacts =
          (ingestAll rs).artifacts ++
            [⟨(ingestAll rs).next_artifact_id, r.hash_sha256, r.original_path,
              r.media_type, r.width, r.height⟩] := by
        rw [applyRecord_artifacts, hup]
      have hnotin : r.hash_sha256 ∉
          (ingestAll rs).artifacts.map (fun a => a.hash_sha256) := by
        intro hmem
        obtain ⟨a, ha, hha⟩ := List.mem_map.mp hmem
        have := List.find?_eq_none.mp hf a ha
        simp [hha] at this
      refine ⟨?_, fun h => ?_⟩
      · rw [hart, List.map_append, List.nodup_append]
        refine ⟨ihnd, by simp, ?_⟩
        intro x hx
        simp only [List.map_cons, List.map_nil, List.mem_singleton]
        intro hx2
        exact hnotin (hx2 ▸ hx)
      · have hres : artifactFor (applyRecord (ingestAll rs) r) h =
            (artifactFor (ingestAll rs) h).or
              (if r.hash_sha256 == h then
                some (⟨(ingestAll rs).next_artifact_id, r.hash_sha256,
                  r.original_path, r.media_type, r.width, r.height⟩ : ArtifactRow)
               else none) := by
          unfold artifactFor
          rw [hart, List.find?_append]
          congr 1
          rcases hb : r.hash_sha256 == h with _ | _ <;> simp [List.find?, hb]
        by_cases hh : r.hash_sha256 = h
        · subst hh
          have hfrn : firstRec rs r.hash_sha256 = none := (ihh r.hash_sha256).1.mp hf
          constructor
          · rw [hres, firstRec_append_singleton, hf, hfrn]
            simp
          · intro a ha
            rw [hres, hf] at ha
            simp only [beq_self_eq_true, if_true, Option.none_or,
              Option.some.injEq] at ha
            rw [firstRec_append_singleton, lastRec_append_singleton, hfrn]
            refine ⟨r, r, by simp, by simp, ?_⟩
            rw [← ha]
            exact ⟨rfl, rfl, rfl, rfl, rfl⟩
        · have hbf : (r.hash_sha256 == h) = false := beq_eq_false_iff_ne.mpr hh
          constructor
          · rw [hres, firstRec_append_singleton, hbf]
            simp only [Bool.false_eq_true, if_false, Option.or_none]
            exact (ihh h).1
          · intro a ha
            rw [hres, hbf] at ha
            simp only [Bool.false_eq_true, if_false, Option.or_none] at ha
            rw [firstRec_append_singleton, lastRec_append_singleton, hbf]
            simp only [Bool.false_eq_true, if_false, Option.or_none]
            exact (ihh h).2 a ha
    · -- hash already present: the existing row is patched in place
      have hup := upsertArtifact_found (ingestAll rs) r row hf
      have hart : (applyRecord (ingestAll rs) r).artifacts =
          (ingestAll rs).artifacts.map (patchRow r) := by
        rw [applyRecord_artifacts, hup]
      have hhm : (applyRecord (ingestAll rs) r).artifacts.map
            (fun a => a.hash_sha256) =
          (ingestAll rs).artifacts.map (fun a => a.hash_sha256) := by
        rw [hart, List.map_map]
        congr 1
        funext a
        exact patchRow_hash r a
      refine ⟨by rw [hhm]; exact ihnd, fun h => ?_⟩
      have hres : artifactFor (applyRecord (ingestAll rs) r) h =
          (artifactFor (ingestAll rs) h).map (patchRow r) := by
        unfold artifactFor
        rw [hart]
        exact find?_map_patchRow _ r h
      by_cases hh : r.hash_sha256 = h
      · subst hh
        obtain ⟨f0, l0, hfr, hlr, hcrow⟩ := (ihh r.hash_sha256).2 row hf
        constructor
        · rw [hres, hf, firstRec_append_singleton, hfr]
          simp
        · intro a ha
          rw [hres, hf] at ha
          simp only [Option.map_some', Option.some.injEq] at ha
          rw [firstRec_append_singleton, lastRec_append_singleton, hfr]
          refine ⟨f0, r, by simp, by simp, ?_⟩
          rw [← ha, patchRow_of_eq r row hcrow.1]
          exact ⟨hcrow.1, rfl, hcrow.2.2.1, hcrow.2.2.2.1, hcrow.2.2.2.2⟩
      · have hbf : (r.hash_sha256 == h) = false := beq_eq_false_iff_ne.mpr hh
        constructor
        · rw [hres, firstRec_append_singleton, hbf]
          simp only [Bool.false_eq_true, if_false, Option.or_none,
            Option.map_eq_none']
          exact (ihh h).1
        · intro a ha
          rw [hres] at ha
          obtain ⟨b, hb, hab⟩ := Option.map_eq_some'.mp ha
          obtain ⟨f0, l0, hfr, hlr, hcb⟩ := (ihh h).2 b hb
          rw [firstRec_append_singleton, lastRec_append_singleton, hbf]
          simp only [Bool.false_eq_true, if_false, Option.or_none]
          refine ⟨f0, l0, hfr, hlr, ?_⟩
          rw [← hab, patchRow_of_ne r b (by rw [hcb.1]; exact fun he => hh he.symm)]
          exact hcb

/-- The inserted-or-ignored tag row is resolvable: there is a row with the
requested name, and it is a member of the table. -/
theorem insertTagIgnore_resolves (db : DBState) (t : String) :
    ∃ tg : TagRow, (insertTagIgnore db t).tags.find? (fun x => x.name == t) = some tg ∧
      tg ∈ (insertTagIgnore db t).tags ∧ tg.name = t := by
  obtain ⟨tid, hg⟩ := getTagId_insertTagIgnore db t
  unfold getTagId at hg
  obtain ⟨tg, htg, _⟩ := Option.map_eq_some'.mp hg
  have hpa := List.find?_some htg
  simp only [beq_iff_eq] at hpa
  exact ⟨tg, htg, List.mem_of_find?_eq_some htg, hpa⟩

/-- The link insert leaves the pair present. -/
theorem linkTag_mem (db : DBState) (aid tid : Nat) :
    (aid, tid) ∈ (linkTag db aid tid).artifact_tags := by
  unfold linkTag
  split
  · assumption
  · simp

/-- The link insert only ever adds the given pair. -/
theorem linkTag_subset (db : DBState) (aid tid : Nat) (p : Nat × Nat)
    (hp : p ∈ (linkTag db aid tid).artifact_tags) :
    p ∈ db.artifact_tags ∨ p = (aid, tid) := by
  unfold linkTag at hp
  split at hp
  · exact Or.inl hp
  · rcases List.mem_append.mp hp with hm | hm
    · exact Or.inl hm
    · exact Or.inr (List.mem_singleton.mp hm)

/-- Tag-table membership is monotone under the tag-loop step. -/
theorem applyTag_tags_mono (db : DBState) (aid : Nat) (t : String)
    (tg : TagRow) (h : tg ∈ db.tags) : tg ∈ (applyTag db aid t).tags := by
  simp only [applyTag]
  have h1 : tg ∈ (insertTagIgnore db t).tags := by
    unfold insertTagIgnore
    split
    · exact h
    · simp only [List.mem_append]
      exact Or.inl h
  rcases hg : getTagId (insertTagIgnore db t) t with _ | tid
  · exact h1
  · have := (linkTag_frame (insertTagIgnore db t) aid tid).2.1
    rw [this]
    exact h1

/-- Association membership is monotone under the tag-loop step. -/
theorem applyTag_links_mono (db : DBState) (aid : Nat) (t : String)
    (p : Nat × Nat) (h : p ∈ db.artifact_tags) :
    p ∈ (applyTag db aid t).artifact_tags := by
  simp only [applyTag]
  have h1 : p ∈ (insertTagIgnore db t).artifact_tags := by
    rw [(insertTagIgnore_frame db t).2.1]
    exact h
  rcases hg : getTagId (insertTagIgnore db t) t with _ | tid
  · exact h1
  · by_cases hmem : (aid, tid) ∈ (insertTagIgnore db t).artifact_tags
    · simp only [linkTag, if_pos hmem]
      exact h1
    · simp only [linkTag, if_neg hmem, List.mem_append]
      exact Or.inl h1

/-- Tag membership is monotone under a record's whole tag fold. -/
theorem foldTags_tags_mono (aid : Nat) (ts : List String) :
    ∀ (db : DBState) (tg : TagRow), tg ∈ db.tags →
      tg ∈ (ts.foldl (fun d t => applyTag d aid t) db).tags := by
  induction ts with
  | nil => intro db tg h; exact h
  | cons t ts ih =>
    intro db tg h
    simp only [List.foldl_cons]
    exact ih _ tg (applyTag_tags_mono db aid t tg h)

/-- Association membership is monotone under a record's whole tag fold. -/
theorem foldTags_links_mono (aid : Nat) (ts : List String) :
    ∀ (db : DBState) (p : Nat × Nat), p ∈ db.artifact_tags →
      p ∈ (ts.foldl (fun d t => applyTag d aid t) db).artifact_tags := by
  induction ts with
  | nil => intro db p h; exact h
  | cons t ts ih =>
    intro db p h
    simp only [List.foldl_cons]
    exact ih _ p (applyTag_links_mono db aid t p h)

/-- Tag membership is monotone under a record's pass. -/
theorem applyRecord_tags_mono (db : DBState) (r : ArtifactRecord)
    (tg : TagRow) (h : tg ∈ db.tags) : tg ∈ (applyRecord db r).tags := by
  simp only [applyRecord]
  rcases hu : upsertArtifact db r with ⟨aid, db1⟩
  have hup := upsertArtifact_frame db r
  rw [hu] at hup
  have h1 : tg ∈ db1.tags := by rw [hup.1]; exact h
  have h2 := foldTags_tags_mono aid r.tags db1 tg h1
  rcases r.nsfw_score with _ | s
  · simpa [appendSearchIndex] using h2
  · have := (replaceScore_frame (r.tags.foldl (fun d t => applyTag d aid t) db1) aid s).2.1
    simp only [appendSearchIndex]
    rw [this]
    exact h2

/-- Association membership is monotone under a record's pass. -/
theorem applyRecord_links_mono (db : DBState) (r : ArtifactRecord)
    (p : Nat × Nat) (h : p ∈ db.artifact_tags) :
    p ∈ (applyRecord db r).artifact_tags := by
  simp only [applyRecord]
  rcases hu : upsertArtifact db r with ⟨aid, db1⟩
  have hup := upsertArtifact_frame db r
  rw [hu] at hup
  have h1 : p ∈ db1.artifact_tags := by rw [hup.2.1]; exact h
  have h2 := foldTags_links_mono aid r.tags db1 p h1
  rcases r.nsfw_score with _ | s
  · simpa [appendSearchIndex] using h2
  · have := (replaceScore_frame (r.tags.foldl (fun d t => applyTag d aid t) db1) aid s).2.2.1
    simp only [appendSearchIndex]
    rw [this]
    exact h2

/-- The tag-loop step keeps tag names pairwise distinct. -/
theorem applyTag_names_nodup (db : DBState) (aid : Nat) (t : String)
    (hnd : (db.tags.map (fun tg => tg.name)).Nodup) :
    ((applyTag db aid t).tags.map (fun tg => tg.name)).Nodup := by
  simp only [applyTag]
  have h1 : ((insertTagIgnore db t).tags.map (fun tg => tg.name)).Nodup := by
    unfold insertTagIgnore
    by_cases hany : db.tags.any (fun tg => tg.name == t)
    · rw [if_pos hany]; exact hnd
    · rw [if_neg hany]
      simp only [List.map_append, List.map_cons, List.map_nil]
      rw [List.nodup_append]
      refine ⟨hnd, by simp, ?_⟩
      intro x hx
      simp only [List.mem_singleton]
      intro hx2
      subst hx2
      obtain ⟨tg, htg, hname⟩ := List.mem_map.mp hx
      exact hany (List.any_eq_true.mpr ⟨tg, htg, by simp [hname]⟩)
  rcases hg : getTagId (insertTagIgnore db t) t with _ | tid
  · exact h1
  · rw [(linkTag_frame (insertTagIgnore db t) aid tid).2.1]
    exact h1

/-- The tag-loop step keeps association pairs pairwise distinct. -/
theorem applyTag_links_nodup (db : DBState) (aid : Nat) (t : String)
    (hnd : db.artifact_tags.Nodup) :
    (applyTag db aid t).artifact_tags.Nodup := by
  simp only [applyTag]
  have h1 : (insertTagIgnore db t).artifact_tags.Nodup := by
    rw [(insertTagIgnore_frame db t).2.1]; exact hnd
  rcases hg : getTagId (insertTagIgnore db t) t with _ | tid
  · exact h1
  · by_cases hmem : (aid, tid) ∈ (insertTagIgnore db t).artifact_tags
    · simp only [linkTag, if_pos hmem]
      exact h1
    · simp only [linkTag, if_neg hmem]
      rw [List.nodup_append]
      refine ⟨h1, by simp, ?_⟩
      intro x hx
      simp only [List.mem_singleton]
      intro hx2
      subst hx2
      exact hmem hx

/-- The whole record pass keeps both tag names and association pairs
pairwise distinct. -/
theorem applyRecord_tag_nodups (db : DBState) (r : ArtifactRecord)
    (hnd1 : (db.tags.map (fun tg => tg.name)).Nodup)
    (hnd2 : db.artifact_tags.Nodup) :
    ((applyRecord db r).tags.map (fun tg => tg.name)).Nodup ∧
    (applyRecord db r).artifact_tags.Nodup := by
  simp only [applyRecord]
  rcases hu : upsertArtifact db r with ⟨aid, db1⟩
  have hup := upsertArtifact_frame db r
  rw [hu] at hup
  have hfold : ∀ ts : List String, ∀ d : DBState,
      (d.tags.map (fun tg => tg.name)).Nodup → d.artifact_tags.Nodup →
      (((ts.foldl (fun d t => applyTag d aid t) d).tags.map
          (fun tg => tg.name)).Nodup ∧
        (ts.foldl (fun d t => applyTag d aid t) d).artifact_tags.Nodup) := by
    intro ts
    induction ts with
    | nil => intro d h1 h2; exact ⟨h1, h2⟩
    | cons t ts ih =>
      intro d h1 h2
      simp only [List.foldl_cons]
      exact ih _ (applyTag_names_nodup d aid t h1) (applyTag_links_nodup d aid t h2)
  have hf := hfold r.tags db1 (by rw [hup.1]; exact hnd1) (by rw [hup.2.1]; exact hnd2)
  rcases r.nsfw_score with _ | s
  · simpa [appendSearchIndex] using hf
  · have hframe := replaceScore_frame (r.tags.foldl (fun d t => applyTag d aid t) db1) aid s
    simp only [appendSearchIndex]
    rw [hframe.2.1, hframe.2.2.1]
    exact hf

/-- Ingesting any records from a fresh database keeps tag names and
association pairs pairwise distinct. -/
theorem ingest_tag_nodups (rs : List ArtifactRecord) :
    (((ingestAll rs).tags.map (fun tg => tg.name)).Nodup ∧
      (ingestAll rs).artifact_tags.Nodup) := by
  induction rs using List.reverseRecOn with
  | nil => simp [ingestAll, applyBatch, emptyDB]
  | append_singleton rs r ih =>
    rw [ingestAll_append_singleton]
    exact applyRecord_tag_nodups _ r ih.1 ih.2

/-- The tag-loop step for a tag establishes its row and its association. -/
theorem applyTag_establishes (db : DBState) (aid : Nat) (t : String) :
    ∃ tg : TagRow, tg ∈ (applyTag db aid t).tags ∧ tg.name = t ∧
      (aid, tg.id) ∈ (applyTag db aid t).artifact_tags := by
  obtain ⟨tg, hfind, hmem, hname⟩ := insertTagIgnore_resolves db t
  have hg : getTagId (insertTagIgnore db t) t = some tg.id := by
    unfold getTagId
    rw [hfind]
    rfl
  simp only [applyTag, hg]
  refine ⟨tg, ?_, hname, linkTag_mem _ aid tg.id⟩
  rw [(linkTag_frame (insertTagIgnore db t) aid tg.id).2.1]
  exact hmem

/-- The record's tag fold establishes a row and an association for every tag
of the record. -/
theorem foldTags_establishes (aid : Nat) (ts : List String) :
    ∀ (db : DBState) (t : String), t ∈ ts →
      ∃ tg : TagRow,
        tg ∈ (ts.foldl (fun d t => applyTag d aid t) db).tags ∧ tg.name = t ∧
        (aid, tg.id) ∈ (ts.foldl (fun d t => applyTag d aid t) db).artifact_tags := by
  induction ts with
  | nil => intro db t h; cases h
  | cons t0 ts ih =>
    intro db t ht
    simp only [List.foldl_cons]
    rcases List.mem_cons.mp ht with rfl | hmem
    · obtain ⟨tg, h1, h2, h3⟩ := applyTag_establishes db aid t
      exact ⟨tg, foldTags_tags_mono aid ts _ tg h1, h2,
        foldTags_links_mono aid ts _ _ h3⟩
    · exact ih (applyTag db aid t0) t hmem

/-- A record's pass establishes, for each of its tags, a tag row and an
association with the id returned by the record's artifact upsert. -/
theorem applyRecord_establishes (db : DBState) (r : ArtifactRecord)
    (t : String) (ht : t ∈ r.tags) :
    ∃ tg : TagRow, tg ∈ (applyRecord db r).tags ∧ tg.name = t ∧
      ((upsertArtifact db r).1, tg.id) ∈ (applyRecord db r).artifact_tags := by
  simp only [applyRecord]
  rcases hu : upsertArtifact db r with ⟨aid, db1⟩
  obtain ⟨tg, h1, h2, h3⟩ := foldTags_establishes aid r.tags db1 t ht
  rcases r.nsfw_score with _ | s
  · exact ⟨tg, by simpa [appendSearchIndex] using h1, h2,
      by simpa [appendSearchIndex] using h3⟩
  · have hframe := replaceScore_frame (r.tags.foldl (fun d t => applyTag d aid t) db1) aid s
    refine ⟨tg, ?_, h2, ?_⟩
    · simp only [appendSearchIndex]
      rw [hframe.2.1]
      exact h1
    · simp only [appendSearchIndex]
      rw [hframe.2.2.1]
      exact h3

/-- A hash that resolves to a row keeps resolving, with the same id, media
type and dimensions, under any further record's pass. -/
theorem artifactFor_stable (db : DBState) (h : String) (a : ArtifactRow)
    (ha : artifactFor db h = some a) (r : ArtifactRecord) :
    ∃ a', artifactFor (applyRecord db r) h = some a' ∧ a'.id = a.id ∧
      a'.hash_sha256 = a.hash_sha256 ∧ a'.media_type = a.media_type ∧
      a'.width = a.width ∧ a'.height = a.height := by
  rcases hf : artifactFor db r.hash_sha256 with _ | row
  · have hup := upsertArtifact_new db r hf
    have hart : (applyRecord db r).artifacts = db.artifacts ++
        [⟨db.next_artifact_id, r.hash_sha256, r.original_path,
          r.media_type, r.width, r.height⟩] := by
      rw [applyRecord_artifacts, hup]
    refine ⟨a, ?_, rfl, rfl, rfl, rfl, rfl⟩
    unfold artifactFor at ha ⊢
    rw [hart, List.find?_append, ha]
    rfl
  · have hup := upsertArtifact_found db r row hf
    have hart : (applyRecord db r).artifacts = db.artifacts.map (patchRow r) := by
      rw [applyRecord_artifacts, hup]
    refine ⟨patchRow r a, ?_, (patchRow_keeps r a).1, patchRow_hash r a,
      (patchRow_keeps r a).2.1, (patchRow_keeps r a).2.2.1,
      (patchRow_keeps r a).2.2.2⟩
    unfold artifactFor at ha ⊢
    rw [hart, find?_map_patchRow, ha]
    rfl

/-- After a record's pass, the record's own hash resolves to a row whose id
is the one the upsert returned. -/
theorem artifactFor_self (db : DBState) (r : ArtifactRecord) :
    ∃ a, artifactFor (applyRecord db r) r.hash_sha256 = some a ∧
      a.id = (upsertArtifact db r).1 := by
  rcases hf : artifactFor db r.hash_sha256 with _ | row
  · have hup := upsertArtifact_new db r hf
    have hart : (applyRecord db r).artifacts = db.artifacts ++
        [⟨db.next_artifact_id, r.hash_sha256, r.original_path,
          r.media_type, r.width, r.height⟩] := by
      rw [applyRecord_artifacts, hup]
    refine ⟨⟨db.next_artifact_id, r.hash_sha256, r.original_path,
      r.media_type, r.width, r.height⟩, ?_, by rw [hup]⟩
    unfold artifactFor at hf ⊢
    rw [hart, List.find?_append, hf]
    simp [List.find?]
  · have hup := upsertArtifact_found db r row hf
    have hart : (applyRecord db r).artifacts = db.artifacts.map (patchRow r) := by
      rw [applyRecord_artifacts, hup]
    refine ⟨patchRow r row, ?_, by rw [hup, (patchRow_keeps r row).1]⟩
    unfold artifactFor at hf ⊢
    rw [hart, find?_map_patchRow, hf]
    rfl

/-- Ingesting further records never loses a tag row. -/
theorem ingest_tags_mono (db : DBState) (rs : List ArtifactRecord)
    (tg : TagRow) (h : tg ∈ db.tags) : tg ∈ (applyBatch db rs).tags := by
  induction rs generalizing db with
  | nil => exact h
  | cons r rs ih =>
    simp only [applyBatch, List.foldl_cons]
    exact ih _ (applyRecord_tags_mono db r tg h)

/-- Ingesting further records never loses an association row. -/
theorem ingest_links_mono (db : DBState) (rs : List ArtifactRecord)
    (p : Nat × Nat) (h : p ∈ db.artifact_tags) :
    p ∈ (applyBatch db rs).artifact_tags := by
  induction rs generalizing db with
  | nil => exact h
  | cons r rs ih =>
    simp only [applyBatch, List.foldl_cons]
    exact ih _ (applyRecord_links_mono db r p h)

/-- Every tag ever applied to a record resolves, in the final state, to one
tag row and one association with that record's artifact. -/
theorem ingest_links_exist (rs : List ArtifactRecord) (r : ArtifactRecord)
    (hr : r ∈ rs) (t : String) (ht : t ∈ r.tags) :
    ∃ a tg, artifactFor (ingestAll rs) r.hash_sha256 = some a ∧
      tg ∈ (ingestAll rs).tags ∧ tg.name = t ∧
      (a.id, tg.id) ∈ (ingestAll rs).artifact_tags := by
  induction rs using List.reverseRecOn with
  | nil => cases hr
  | append_singleton rs r0 ih =>
    rw [ingestAll_append_singleton]
    rcases List.mem_append.mp hr with hmem | hsing
    · obtain ⟨a, tg, h1, h2, h3, h4⟩ := ih hmem
      obtain ⟨a', h1', hid, _, _, _, _⟩ := artifactFor_stable _ _ a h1 r0
      exact ⟨a', tg, h1', applyRecord_tags_mono _ r0 tg h2, h3,
        hid ▸ applyRecord_links_mono _ r0 _ h4⟩
    · have hr0 : r = r0 := List.mem_singleton.mp hsing
      subst hr0
      obtain ⟨a, ha, hid⟩ := artifactFor_self (ingestAll rs) r
      obtain ⟨tg, h1, h2, h3⟩ := applyRecord_establishes (ingestAll rs) r t ht
      exact ⟨a, tg, ha, h1, h2, by rw [hid]; exact h3⟩

/-- When the tag row already resolves and the association already exists,
the tag-loop step is a no-op. -/
theorem applyTag_noop (db : DBState) (aid : Nat) (t : String) (tg : TagRow)
    (hfind : db.tags.find? (fun x => x.name == t) = some tg)
    (hpair : (aid, tg.id) ∈ db.artifact_tags) :
    applyTag db aid t = db := by
  have hany : (db.tags.any fun x => x.name == t) = true := by
    rw [List.any_eq_true]
    have hp := List.find?_some hfind
    exact ⟨tg, List.mem_of_find?_eq_some hfind, hp⟩
  have hins : insertTagIgnore db t = db := by
    unfold insertTagIgnore
    rw [if_pos hany]
  have hg : getTagId db t = some tg.id := by
    unfold getTagId
    rw [hfind]
    rfl
  simp only [applyTag, hins, hg]
  unfold linkTag
  rw [if_pos hpair]

/-- Applying the same tag to the same artifact twice is a no-op the second
time. -/
theorem applyTag_idem (db : DBState) (aid : Nat) (t : String) :
    applyTag (applyTag db aid t) aid t = applyTag db aid t := by
  obtain ⟨tg, hfind, hmem, hname⟩ := insertTagIgnore_resolves db t
  have hg : getTagId (insertTagIgnore db t) t = some tg.id := by
    unfold getTagId
    rw [hfind]
    rfl
  have h1 : applyTag db aid t = linkTag (insertTagIgnore db t) aid tg.id := by
    simp [applyTag, hg]
  apply applyTag_noop _ aid t tg
  · rw [h1, (linkTag_frame _ _ _).2.1]
    exact hfind
  · rw [h1]
    exact linkTag_mem _ _ _

/-- The score upsert keeps artifact ids pairwise distinct. -/
theorem replaceScoreL_keys_nodup (l : List (Nat × ℚ)) (aid : Nat) (s : ℚ)
    (hnd : (l.map Prod.fst).Nodup) :
    ((replaceScoreL l aid s).map Prod.fst).Nodup := by
  unfold replaceScoreL
  by_cases hany : l.any (fun p => p.1 == aid)
  · rw [if_pos hany]
    have hkeys : (l.map (fun p => if p.1 == aid then (aid, s) else p)).map
        Prod.fst = l.map Prod.fst := by
      rw [List.map_map]
      congr 1
      funext p
      by_cases hp : (p.1 == aid) = true
      · simp [Function.comp, hp, beq_iff_eq.mp hp]
      · simp [Function.comp, hp]
    rw [hkeys]
    exact hnd
  · rw [if_neg hany, List.map_append, List.nodup_append]
    refine ⟨hnd, by simp, ?_⟩
    intro x hx
    simp only [List.map_cons, List.map_nil, List.mem_singleton]
    intro hx2
    subst hx2
    obtain ⟨p, hp, hpx⟩ := List.mem_map.mp hx
    exact hany (List.any_eq_true.mpr ⟨p, hp, by simp [hpx]⟩)

/-- After the score upsert, the artifact's key resolves to the new score. -/
theorem replaceScoreL_find (l : List (Nat × ℚ)) (aid : Nat) (s : ℚ) :
    (replaceScoreL l aid s).find? (fun p => p.1 == aid) = some (aid, s) := by
  unfold replaceScoreL
  by_cases hany : l.any (fun p => p.1 == aid)
  · rw [if_pos hany]
    obtain ⟨p0, hp0, hpp⟩ := List.any_eq_true.mp hany
    have hsome : (l.find? (fun p => p.1 == aid)).isSome :=
      List.find?_isSome.mpr ⟨p0, hp0, hpp⟩
    obtain ⟨q, hq⟩ := Option.isSome_iff_exists.mp hsome
    have hpq := List.find?_some hq
    have hpf : ((fun p : Nat × ℚ => p.1 == aid) ∘
        (fun p => if p.1 == aid then (aid, s) else p)) =
        (fun p : Nat × ℚ => p.1 == aid) := by
      funext p
      by_cases hp : (p.1 == aid) = true
      · simp [Function.comp, hp]
      · simp [Function.comp, hp]
    rw [List.find?_map, hpf, hq]
    simp only [Option.map_some']
    rw [if_pos hpq]
  · rw [if_neg hany, List.find?_append]
    have hnone : l.find? (fun p => p.1 == aid) = none :=
      List.find?_eq_none.mpr
        (fun x hx hpx => hany (List.any_eq_true.mpr ⟨x, hx, hpx⟩))
    rw [hnone]
    simp [List.find?]

/-- The record pass keeps score keys pairwise distinct. -/
theorem applyRecord_scores_keys_nodup (db : DBState) (r : ArtifactRecord)
    (hnd : (db.safety_scores.map Prod.fst).Nodup) :
    ((applyRecord db r).safety_scores.map Prod.fst).Nodup := by
  rcases hs : r.nsfw_score with _ | s <;>
    rw [applyRecord_safety_scores, hs]
  · exact hnd
  · exact replaceScoreL_keys_nodup _ _ s hnd

/-- Ingesting any records from a fresh database leaves at most one score row
per artifact id. -/
theorem ingest_scores_keys_nodup (rs : List ArtifactRecord) :
    (((ingestAll rs).safety_scores.map Prod.fst)).Nodup := by
  induction rs using List.reverseRecOn with
  | nil => simp [ingestAll, applyBatch, emptyDB]
  | append_singleton rs r ih =>
    rw [ingestAll_append_singleton]
    exact applyRecord_scores_keys_nodup _ r ih

/-- A committed batch appends exactly one search-index entry per record, in
buffer order. -/
theorem applyBatch_search_index (rs : List ArtifactRecord) :
    ∀ db : DBState,
      (applyBatch db rs).search_index =
        db.search_index ++ rs.map searchEntryOf := by
  induction rs with
  | nil => intro db; simp [applyBatch]
  | cons r rs ih =>
    intro db
    simp only [applyBatch, List.foldl_cons, List.map_cons] at *
    rw [ih (applyRecord db r), applyRecord_search_index]
    simp

/-- When every ingested record carries the same hash and a score, the
persisted score for that artifact is the last record's. -/
theorem ingest_last_score (h : String) (rs : List ArtifactRecord)
    (hne : rs ≠ []) (hh : ∀ r ∈ rs, r.hash_sha256 = h)
    (hs : ∀ r ∈ rs, r.nsfw_score ≠ none) :
    ∃ a rl s, artifactFor (ingestAll rs) h = some a ∧
      rs.getLast? = some rl ∧ rl.nsfw_score = some s ∧
      (ingestAll rs).safety_scores.find? (fun p => p.1 == a.id) =
        some (a.id, s) := by
  rcases List.eq_nil_or_concat rs with rfl | ⟨rs0, r, rfl⟩
  · exact absurd rfl hne
  · simp only [List.concat_eq_append] at hh hs ⊢
    rw [ingestAll_append_singleton]
    have hrh : r.hash_sha256 = h := hh r (by simp)
    obtain ⟨s, hscore⟩ : ∃ s, r.nsfw_score = some s := by
      rcases hsr : r.nsfw_score with _ | s
      · exact absurd hsr (hs r (by simp))
      · exact ⟨s, rfl⟩
    obtain ⟨a, ha, hid⟩ := artifactFor_self (ingestAll rs0) r
    refine ⟨a, r, s, by rw [← hrh]; exact ha, by simp, hscore, ?_⟩
    rw [applyRecord_safety_scores, hscore]
    dsimp only
    rw [hid]
    exact replaceScoreL_find _ _ _

/-- The scanner loop aborts at the first traversal error, returning it and
having emitted exactly the file paths seen before the error. -/
theorem scanLoop_error (sendClosed : Nat → Bool)
    (hopen : ∀ i, sendClosed i = false) (e : String)
    (post : List (Except String ScanEntry)) :
    ∀ (pre : List (Except String ScanEntry)) (acc : List String),
      (∀ x ∈ pre, ∃ ent, x = .ok ent) →
      scanLoop sendClosed (pre ++ .error e :: post) acc =
        (.error e, acc ++ filesOf pre) := by
  intro pre
  induction pre with
  | nil =>
    intro acc hok
    simp [scanLoop, filesOf]
  | cons x pre ih =>
    intro acc hok
    obtain ⟨ent, rfl⟩ := hok x (by simp)
    simp only [List.cons_append, scanLoop, List.append_eq]
    by_cases hf : ent.is_file
    · rw [if_pos hf, hopen acc.length]
      simp only [Bool.false_eq_true, if_false]
      rw [ih (acc ++ [ent.path]) (fun y hy => hok y (by simp [hy]))]
      simp [filesOf, hf, List.filterMap_cons]
    · rw [if_neg hf]
      rw [ih acc (fun y hy => hok y (by simp [hy]))]
      simp only [filesOf, List.filterMap_cons]
      rw [if_neg hf]

/-- Reading a list in chunks of a positive size and concatenating the chunks
returns the list: the byte stream the buffered reader feeds to the digest is
the file's content. -/
theorem chunksOf_flatten (n : Nat) (hn : n ≠ 0) :
    ∀ l : List α, (chunksOf n l).flatten = l := by
  have key : ∀ (m : Nat) (l : List α), l.length ≤ m →
      (chunksOf n l).flatten = l := by
    intro m
    induction m with
    | zero =>
      intro l hl
      have : l = [] := List.eq_nil_of_length_eq_zero (Nat.le_zero.mp hl)
      subst this
      simp [chunksOf]
    | succ m ih =>
      intro l hl
      match l with
      | [] => simp [chunksOf]
      | x :: xs =>
        rw [chunksOf]
        rw [dif_neg hn]
        simp only [List.flatten_cons]
        have hlen : ((x :: xs).drop n).length ≤ m := by
          rw [List.length_drop]
          simp only [List.length_cons] at hl ⊢
          omega
        rw [ih ((x :: xs).drop n) hlen]
        exact List.take_append_drop n (x :: xs)
  exact fun l => key l.length l le_rfl

/-- Every byte of a big-endian word split is below 256. -/
theorem toBytesBE4_lt (n : Nat) (b : Nat) (hb : b ∈ toBytesBE4 n) : b < 256 := by
  simp only [toBytesBE4, List.mem_cons, List.not_mem_nil, or_false] at hb
  rcases hb with rfl | rfl | rfl | rfl <;> exact Nat.mod_lt _ (by norm_num)

/-- A SHA-256 digest is exactly 32 bytes. -/
theorem sha256_length (msg : List Nat) : (sha256 msg).length = 32 := by
  simp [sha256, toBytesBE4]

/-- Every byte of a SHA-256 digest is below 256. -/
theorem sha256_bytes_lt (msg : List Nat) (b : Nat) (hb : b ∈ sha256 msg) :
    b < 256 := by
  simp only [sha256, List.append_assoc, List.mem_append] at hb
  rcases hb with hb | hb | hb | hb | hb | hb | hb | hb <;>
    exact toBytesBE4_lt _ b hb

/-- Hex encoding yields two characters per byte. -/
theorem hexEncode_length (bs : List Nat) : (hexEncode bs).length = 2 * bs.length := by
  have key : ∀ bs : List Nat, ((bs.map hexByte).flatten).length = 2 * bs.length := by
    intro bs
    induction bs with
    | nil => rfl
    | cons b bs ih =>
      simp only [List.map_cons, List.flatten_cons, List.length_append, ih, hexByte]
      simp only [List.length_cons, List.length_nil]
      omega
  exact key bs

/-- Both characters of one encoded byte are lowercase hex digits. -/
theorem hexByte_chars (b : Nat) (hb : b < 256) (c : Char)
    (hc : c ∈ hexByte b) : c ∈ "0123456789abcdef".data := by
  have h1 : b / 16 < 16 := by omega
  have h2 : b % 16 < 16 := Nat.mod_lt _ (by norm_num)
  simp only [hexByte, List.mem_cons, List.not_mem_nil, or_false] at hc
  rcases hc with rfl | rfl
  · set q := b / 16 with hq
    interval_cases q <;> decide
  · set q := b % 16 with hq
    interval_cases q <;> decide

/-- Every character of a hex encoding of genuine bytes is a lowercase hex
digit. -/
theorem hexEncode_chars (bs : List Nat) (hbs : ∀ b ∈ bs, b < 256) (c : Char)
    (hc : c ∈ (hexEncode bs).data) : c ∈ "0123456789abcdef".data := by
  have hc' : c ∈ (bs.map hexByte).flatten := hc
  obtain ⟨l, hl, hcl⟩ := List.mem_flatten.mp hc'
  obtain ⟨b, hb, rfl⟩ := List.mem_map.mp hl
  exact hexByte_chars b (hbs b hb) c hcl

/-- For a visual job with a decodable full-size frame and a live engine, the
enrichment fields mirror exactly the two normalization outcomes. -/
theorem processJob_visual_engine (env : JobEnv) (job : MediaJob) (m : String)
    (raw : List Nat) (hm : env.mimetype = .ok m)
    (hv : (strStartsWith m "video/" || strStartsWith m "image/") = true)
    (hfr : env.frames = .ok raw) (hlen : 224 * 224 * 3 ≤ raw.length)
    (heng : env.engine = true) :
    (processJob env job).nsfw_score =
      (match env.nsfwNorm with
       | .ok _ => some ((1 : ℚ) / 100)
       | .error _ => none) ∧
    (processJob env job).tags =
      (match env.taggerNorm with
       | .ok _ => ["simulated_tag"]
       | .error _ => []) := by
  unfold processJob
  rw [hm, hfr]
  simp only [hv, if_true, if_pos hlen, heng]
  rcases env.nsfwNorm with e | u <;> rcases env.taggerNorm with e2 | u2 <;>
    simp

/-- The enrichment fields are empty unless the corresponding normalization
succeeded: a safety score appears only after a successful NSFW
normalization, and tags only after a successful tagger normalization. -/
theorem processJob_enrichment (env : JobEnv) (job : MediaJob) :
    ((processJob env job).nsfw_score = none ∨
      (env.nsfwNorm = .ok () ∧
        (processJob env job).nsfw_score = some ((1 : ℚ) / 100))) ∧
    ((processJob env job).tags = [] ∨
      (env.taggerNorm = .ok () ∧
        (processJob env job).tags = ["simulated_tag"])) := by
  unfold processJob
  rcases hm : env.mimetype with e | m <;> dsimp only
  · have hoct : (strStartsWith "application/octet-stream" "video/" ||
        strStartsWith "application/octet-stream" "image/") = false := by decide
    rw [hoct]
    simp
  · by_cases hv : (strStartsWith m "video/" || strStartsWith m "image/") = true
    · rw [hv]
      simp only [if_true]
      rcases hfr : env.frames with e | raw
      · simp
      · dsimp only
        by_cases hlen : 224 * 224 * 3 ≤ raw.length
        · rw [if_pos hlen]
          rcases heng : env.engine with _ | _
          · simp
          · simp only [if_true]
            constructor
            · rcases hn : env.nsfwNorm with e2 | u
              · left; rfl
              · right; exact ⟨by rfl, by rfl⟩
            · rcases ht : env.taggerNorm with e2 | u
              · left; rfl
              · right; exact ⟨by rfl, by rfl⟩
        · rw [if_neg hlen]
          simp
    · simp only [Bool.not_eq_true] at hv
      rw [hv]
      simp

/-- In a duplicate-free list, a member's count is exactly one. -/
theorem nodup_count_eq_one {α : Type} [BEq α] [LawfulBEq α] (l : List α)
    (hnd : l.Nodup) (x : α) (hx : x ∈ l) : l.count x = 1 := by
  induction l with
  | nil => cases hx
  | cons b l ih =>
    rw [List.count_cons]
    rcases List.mem_cons.mp hx with rfl | hmem
    · have hb : l.count x = 0 :=
        List.count_eq_zero.mpr (List.nodup_cons.mp hnd).1
      simp [hb]
    · have hne : x ≠ b := fun he =>
        (List.nodup_cons.mp hnd).1 (he ▸ hmem)
      rw [ih (List.nodup_cons.mp hnd).2 hmem]
      have hbx : ¬b = x := fun he => hne he.symm
      simp [hbx]

/-! ## Claim theorems -/

/-- C1: for a non-empty buffer, a flush in which any statement of the
transaction fails returns an error and leaves the database and buffer
exactly as before the call, while a flush in which every statement succeeds
commits the pure effects of all buffered records together and clears the
buffer. -/
theorem C1_flush_atomic (oracle : StepOracle) (s : TMState)
    (hne : s.buffer ≠ []) :
    ((flushRun oracle s).1 = .error () → (flushRun oracle s).2 = s) ∧
    ((flushRun oracle s).1 = .ok () →
      (flushRun oracle s).2 = ⟨applyBatch s.db s.buffer, [], s.buffer_limit⟩) := by
  rcases flushRun_cases oracle s with ⟨hb, _⟩ | hfl | hfl
  · exact absurd hb hne
  · rw [hfl]
    exact ⟨fun _ => rfl, fun hok => by simp at hok⟩
  · rw [hfl]
    exact ⟨fun herr => by simp at herr, fun _ => rfl⟩

/-- Witness for C1: a fault injected at the eighth statement of a concrete
three-record flush rolls everything back; the fault-free flush commits the
batch and clears the buffer. -/
theorem C1_flush_atomic_witness :
    (flushRun exFaultAt7 exState).2 = exState ∧
    (flushRun noFault exState).2 =
      ⟨applyBatch exState.db exState.buffer, [], exState.buffer_limit⟩ :=
  ⟨(C1_flush_atomic exFaultAt7 exState (by decide)).1 (by decide),
   (C1_flush_atomic noFault exState (by decide)).2 (by decide)⟩

/-- C9: a failed flush leaves buffer and database untouched, so a later
fault-free flush commits the whole failed batch; a successful flush clears
the buffer. -/
theorem C9_failed_flush_keeps_buffer (oracle : StepOracle) (s : TMState) :
    ((flushRun oracle s).1 = .error () →
      (flushRun oracle s).2 = s ∧
      flushRun noFault (flushRun oracle s).2 =
        (.ok (), ⟨applyBatch s.db s.buffer, [], s.buffer_limit⟩)) ∧
    ((flushRun oracle s).1 = .ok () → (flushRun oracle s).2.buffer = []) := by
  rcases flushRun_cases oracle s with ⟨hb, hfl⟩ | hfl | hfl
  · rw [hfl]
    exact ⟨fun herr => by simp at herr, fun _ => hb⟩
  · rw [hfl]
    exact ⟨fun _ => ⟨rfl, flushRun_noFault s⟩, fun hok => by simp at hok⟩
  · rw [hfl]
    exact ⟨fun herr => by simp at herr, fun _ => rfl⟩

/-- Witness for C9 at a concrete faulted flush and a concrete clean flush. -/
theorem C9_failed_flush_keeps_buffer_witness :
    ((flushRun exFaultAt7 exState).2 = exState ∧
      flushRun noFault (flushRun exFaultAt7 exState).2 =
        (.ok (), ⟨applyBatch exState.db exState.buffer, [],
          exState.buffer_limit⟩)) ∧
    (flushRun noFault exState).2.buffer = [] :=
  ⟨(C9_failed_flush_keeps_buffer exFaultAt7 exState).1 (by decide),
   (C9_failed_flush_keeps_buffer noFault exState).2 (by decide)⟩

/-- C6: a successful flush appends exactly one search-index row per buffered
record — the record's path with its tags joined by single spaces — growing
the table by exactly the batch size, unconditionally. -/
theorem C6_search_index_append (oracle : StepOracle) (s : TMState)
    (hok : (flushRun oracle s).1 = .ok ()) :
    (flushRun oracle s).2.db.search_index =
      s.db.search_index ++ s.buffer.map searchEntryOf ∧
    ((flushRun oracle s).2.db.search_index).length =
      (s.db.search_index).length + s.buffer.length := by
  rcases flushRun_cases oracle s with ⟨hb, hfl⟩ | hfl | hfl
  · rw [hfl]
    refine ⟨by simp [hb], by simp [hb]⟩
  · rw [hfl] at hok
    simp at hok
  · rw [hfl]
    refine ⟨applyBatch_search_index s.buffer s.db, ?_⟩
    rw [applyBatch_search_index s.buffer s.db]
    simp

/-- Witness for C6: the concrete three-record flush appends its three
entries, duplicates included. -/
theorem C6_search_index_append_witness :
    (flushRun noFault exState).2.db.search_index =
      exState.db.search_index ++ exState.buffer.map searchEntryOf ∧
    ((flushRun noFault exState).2.db.search_index).length =
      (exState.db.search_index).length + exState.buffer.length :=
  C6_search_index_append noFault exState (by decide)

/-- C2: after ingesting any records, the artifacts table has exactly one row
per distinct flushed hash: a hash resolves to a row exactly when it was
flushed; that row carries the last such record's path and the first such
record's media type and dimensions; and every table row is the resolution
of its own hash. -/
theorem C2_artifact_dedup (rs : List ArtifactRecord) :
    ((ingestAll rs).artifacts.map (fun a => a.hash_sha256)).Nodup ∧
    (∀ h : String,
      (artifactFor (ingestAll rs) h = none ↔ firstRec rs h = none) ∧
      (∀ a, artifactFor (ingestAll rs) h = some a →
        ∃ f l, firstRec rs h = some f ∧ lastRec rs h = some l ∧
          a.hash_sha256 = h ∧ a.original_path = l.original_path ∧
          a.media_type = f.media_type ∧ a.width = f.width ∧
          a.height = f.height)) ∧
    (∀ a ∈ (ingestAll rs).artifacts,
      artifactFor (ingestAll rs) a.hash_sha256 = some a) := by
  obtain ⟨hnd, hchar⟩ := ingest_artifacts_char rs
  exact ⟨hnd, hchar, fun a ha => find?_of_mem_nodup _ hnd a ha⟩

/-- Witness for C2: flushing two records with hash `h1` and one with `h2`
leaves the `h1` row with the second record's path and the first record's
media type and dimensions. -/
theorem C2_artifact_dedup_witness :
    ∃ f l, firstRec [exRecA, exRecB, exRecC] "h1" = some f ∧
      lastRec [exRecA, exRecB, exRecC] "h1" = some l ∧
      (⟨1, "h1", "/b.jpg", "image/jpeg", some 224, some 224⟩ :
        ArtifactRow).hash_sha256 = "h1" ∧
      (⟨1, "h1", "/b.jpg", "image/jpeg", some 224, some 224⟩ :
        ArtifactRow).original_path = l.original_path ∧
      (⟨1, "h1", "/b.jpg", "image/jpeg", some 224, some 224⟩ :
        ArtifactRow).media_type = f.media_type ∧
      (⟨1, "h1", "/b.jpg", "image/jpeg", some 224, some 224⟩ :
        ArtifactRow).width = f.width ∧
      (⟨1, "h1", "/b.jpg", "image/jpeg", some 224, some 224⟩ :
        ArtifactRow).height = f.height :=
  ((C2_artifact_dedup [exRecA, exRecB, exRecC]).2.1 "h1").2
    ⟨1, "h1", "/b.jpg", "image/jpeg", some 224, some 224⟩ (by decide)

/-- C7: tag names are globally unique, artifact-tag pairs are unique, the
tag-association step is idempotent, and every tag ever applied to a record
yields exactly one association row with that record's artifact. -/
theorem C7_tag_link_idempotent (rs : List ArtifactRecord) :
    ((ingestAll rs).tags.map (fun tg => tg.name)).Nodup ∧
    (ingestAll rs).artifact_tags.Nodup ∧
    (∀ (db : DBState) (aid : Nat) (t : String),
      applyTag (applyTag db aid t) aid t = applyTag db aid t) ∧
    (∀ r ∈ rs, ∀ t ∈ r.tags,
      ∃ a tg, artifactFor (ingestAll rs) r.hash_sha256 = some a ∧
        tg ∈ (ingestAll rs).tags ∧ tg.name = t ∧
        (ingestAll rs).artifact_tags.count (a.id, tg.id) = 1) := by
  obtain ⟨hnd1, hnd2⟩ := ingest_tag_nodups rs
  refine ⟨hnd1, hnd2, fun db aid t => applyTag_idem db aid t, ?_⟩
  intro r hr t ht
  obtain ⟨a, tg, h1, h2, h3, h4⟩ := ingest_links_exist rs r hr t ht
  exact ⟨a, tg, h1, h2, h3, nodup_count_eq_one _ hnd2 _ h4⟩

/-- Witness for C7: the tag `cat`, applied to hash `h1` by both records of a
concrete two-record ingest, has exactly one association row. -/
theorem C7_tag_link_idempotent_witness :
    ∃ a tg, artifactFor (ingestAll [exRecA, exRecB]) exRecB.hash_sha256 =
      some a ∧ tg ∈ (ingestAll [exRecA, exRecB]).tags ∧ tg.name = "cat" ∧
      (ingestAll [exRecA, exRecB]).artifact_tags.count (a.id, tg.id) = 1 :=
  (C7_tag_link_idempotent [exRecA, exRecB]).2.2.2 exRecB (by decide)
    "cat" (by decide)

/-- C8: each artifact has at most one score row; a record without a score
leaves the score table untouched; and after flushing same-hash records all
carrying scores, the persisted score is the last record's. -/
theorem C8_score_replace :
    (∀ rs : List ArtifactRecord,
      ((ingestAll rs).safety_scores.map Prod.fst).Nodup) ∧
    (∀ (db : DBState) (r : ArtifactRecord), r.nsfw_score = none →
      (applyRecord db r).safety_scores = db.safety_scores) ∧
    (∀ (h : String) (rs : List ArtifactRecord), rs ≠ [] →
      (∀ r ∈ rs, r.hash_sha256 = h) → (∀ r ∈ rs, r.nsfw_score ≠ none) →
      ∃ a rl s, artifactFor (ingestAll rs) h = some a ∧
        rs.getLast? = some rl ∧ rl.nsfw_score = some s ∧
        (ingestAll rs).safety_scores.find? (fun p => p.1 == a.id) =
          some (a.id, s)) := by
  refine ⟨ingest_scores_keys_nodup, ?_, ingest_last_score⟩
  intro db r hs
  rw [applyRecord_safety_scores, hs]

/-- Witness for C8: two scored records for hash `h3` leave the second score;
a score-free record changes nothing. -/
theorem C8_score_replace_witness :
    (∃ a rl s, artifactFor (ingestAll [exScore1, exScore2]) "h3" = some a ∧
      [exScore1, exScore2].getLast? = some rl ∧ rl.nsfw_score = some s ∧
      (ingestAll [exScore1, exScore2]).safety_scores.find?
        (fun p => p.1 == a.id) = some (a.id, s)) ∧
    (applyRecord emptyDB exRecC).safety_scores = emptyDB.safety_scores :=
  ⟨C8_score_replace.2.2 "h3" [exScore1, exScore2] (by decide) (by decide)
     (by decide),
   C8_score_replace.2.1 emptyDB exRecC (by decide)⟩

/-- C4: the two read strategies of `calculate_hash` agree as functions of
the byte content, identical content yields an identical digest regardless
of path or size, and every digest is a 64-character lowercase-hex string. -/
theorem C4_hash_strategy_equiv :
    (∀ content : List Nat,
      hexEncode (sha256 (mmapAbsorb content)) =
        hexEncode (sha256 (bufferedAbsorb content))) ∧
    (∀ f g : FileData, f.content = g.content →
      calculate_hash f = calculate_hash g) ∧
    (∀ f : FileData, (calculate_hash f).length = 64 ∧
      ∀ c ∈ (calculate_hash f).data, c ∈ "0123456789abcdef".data) := by
  have habs : ∀ content : List Nat, bufferedAbsorb content = content :=
    fun content => chunksOf_flatten 8192 (by norm_num) content
  have hcalc : ∀ f : FileData, calculate_hash f = hexEncode (sha256 f.content) := by
    intro f
    unfold calculate_hash
    rw [habs]
    split <;> rfl
  refine ⟨fun content => by rw [habs]; rfl, ?_, ?_⟩
  · intro f g hfg
    rw [hcalc f, hcalc g, hfg]
  · intro f
    rw [hcalc f]
    refine ⟨?_, ?_⟩
    · rw [hexEncode_length, sha256_length]
    · intro c hc
      exact hexEncode_chars _ (sha256_bytes_lt f.content) c hc

/-- Witness for C4: two concrete files with the same two bytes under
different paths hash identically, to a 64-character string. -/
theorem C4_hash_strategy_equiv_witness :
    calculate_hash exFileA = calculate_hash exFileB ∧
    (calculate_hash exFileA).length = 64 :=
  ⟨C4_hash_strategy_equiv.2.1 exFileA exFileB rfl,
   (C4_hash_strategy_equiv.2.2 exFileA).1⟩

/-- C10: when the walk yields a traversal error and the channel is open,
`scan_directory` returns that error at once, having emitted exactly the
files seen before the error — nothing after it, whatever it is. -/
theorem C10_scan_error_aborts (pre post : List (Except String ScanEntry))
    (e : String) (sendClosed : Nat → Bool)
    (hopen : ∀ i, sendClosed i = false)
    (hok : ∀ x ∈ pre, ∃ ent, x = .ok ent) :
    scanDirectory (pre ++ .error e :: post) sendClosed =
      (.error e, filesOf pre) := by
  unfold scanDirectory
  simpa using scanLoop_error sendClosed hopen e post pre [] hok

/-- Witness for C10: a concrete walk with a file, a directory, an error and
an unreached file emits only the first file and returns the error. -/
theorem C10_scan_error_aborts_witness :
    scanDirectory exEntries chanOpen =
      (.error "permission denied",
       filesOf [.ok ⟨"/r/a.txt", true⟩, .ok ⟨"/r/sub", false⟩]) :=
  C10_scan_error_aborts
    [.ok ⟨"/r/a.txt", true⟩, .ok ⟨"/r/sub", false⟩]
    [.ok ⟨"/r/b.txt", true⟩] "permission denied" chanOpen
    (fun _ => rfl)
    (by
      intro x hx
      simp only [List.mem_cons, List.not_mem_nil, or_false] at hx
      rcases hx with rfl | rfl
      · exact ⟨_, rfl⟩
      · exact ⟨_, rfl⟩)

/-- Counterexample to C5 as stated: a job whose NSFW normalization fails
while the tagger normalization succeeds still gets a non-empty tag list, so
"a normalization failure yields a record with empty tags and no safety
score" is false. -/
theorem C5_cex :
    envNsfwFail.nsfwNorm = .error () ∧
    (processJob envNsfwFail exJobPng).tags = ["simulated_tag"] ∧
    (processJob envNsfwFail exJobPng).tags ≠ [] ∧
    (processJob envNsfwFail exJobPng).nsfw_score = none := by
  obtain ⟨hs, ht⟩ := processJob_visual_engine envNsfwFail exJobPng
    "image/png" (List.replicate (224 * 224 * 3) 0) rfl (by decide) rfl
    (by rw [List.length_replicate]) rfl
  refine ⟨rfl, ?_, ?_, ?_⟩
  · exact ht
  · rw [ht]
    decide
  · exact hs

/-- C5 (amended): every dequeued job yields exactly one record; a MIME
detection failure falls back to `application/octet-stream`; a frame-decode
or image-reconstruction failure yields empty tags and no score; a failed
NSFW normalization yields no score, and a failed tagger normalization
yields no tags — each failed consumer degrades only its own field. -/
theorem C5_worker_isolation :
    (∀ (envOf : MediaJob → JobEnv) (jobs : List MediaJob),
      (workerRun envOf jobs).length = jobs.length) ∧
    (∀ (env : JobEnv) (job : MediaJob), env.mimetype = .error () →
      (processJob env job).media_type = "application/octet-stream") ∧
    (∀ (env : JobEnv) (job : MediaJob), env.frames = .error () →
      (processJob env job).tags = [] ∧
      (processJob env job).nsfw_score = none) ∧
    (∀ (env : JobEnv) (job : MediaJob) (raw : List Nat),
      env.frames = .ok raw → raw.length < 224 * 224 * 3 →
      (processJob env job).tags = [] ∧
      (processJob env job).nsfw_score = none) ∧
    (∀ (env : JobEnv) (job : MediaJob), env.nsfwNorm = .error () →
      (processJob env job).nsfw_score = none) ∧
    (∀ (env : JobEnv) (job : MediaJob), env.taggerNorm = .error () →
      (processJob env job).tags = []) := by
  refine ⟨fun envOf jobs => by simp [workerRun], ?_, ?_, ?_, ?_, ?_⟩
  · intro env job hm
    unfold processJob
    rw [hm]
  · intro env job hfr
    unfold processJob
    rw [hfr]
    rcases env.mimetype with e | m
    · exact ⟨by rfl, by rfl⟩
    · dsimp only
      by_cases hv : (strStartsWith m "video/" || strStartsWith m "image/") = true
      · rw [hv]
        exact ⟨by rfl, by rfl⟩
      · simp only [Bool.not_eq_true] at hv
        rw [hv]
        exact ⟨by rfl, by rfl⟩
  · intro env job raw hfr hlen
    unfold processJob
    rw [hfr]
    have hlt : ¬(224 * 224 * 3 ≤ raw.length) := by omega
    rcases env.mimetype with e | m
    · exact ⟨by rfl, by rfl⟩
    · dsimp only
      by_cases hv : (strStartsWith m "video/" || strStartsWith m "image/") = true
      · rw [hv]
        simp only [if_true, if_neg hlt]
        exact ⟨by trivial, by trivial⟩
      · simp only [Bool.not_eq_true] at hv
        rw [hv]
        exact ⟨by rfl, by rfl⟩
  · intro env job hn
    rcases (processJob_enrichment env job).1 with h | ⟨hok, _⟩
    · exact h
    · rw [hn] at hok
      cases hok
  · intro env job ht
    rcases (processJob_enrichment env job).2 with h | ⟨hok, _⟩
    · exact h
    · rw [ht] at hok
      cases hok

/-- Witness for C5 at concrete jobs: a MIME-sniff failure, a decode failure,
a short raw buffer, a failed NSFW normalization and a failed tagger
normalization each degrade exactly as the amended claim states. -/
theorem C5_worker_isolation_witness :
    (workerRun (fun _ => envText) [exJob]).length = [exJob].length ∧
    (processJob envMimeFail exJob).media_type = "application/octet-stream" ∧
    ((processJob envDecodeFail exJobPng).tags = [] ∧
      (processJob envDecodeFail exJobPng).nsfw_score = none) ∧
    ((processJob envShortRaw exJobPng).tags = [] ∧
      (processJob envShortRaw exJobPng).nsfw_score = none) ∧
    (processJob envNsfwFail exJobPng).nsfw_score = none ∧
    (processJob envTagFail exJobPng).tags = [] :=
  ⟨C5_worker_isolation.1 (fun _ => envText) [exJob],
   C5_worker_isolation.2.1 envMimeFail exJob rfl,
   C5_worker_isolation.2.2.1 envDecodeFail exJobPng rfl,
   C5_worker_isolation.2.2.2.1 envShortRaw exJobPng [0, 0, 0] rfl (by norm_num),
   C5_worker_isolation.2.2.2.2.1 envNsfwFail exJobPng rfl,
   C5_worker_isolation.2.2.2.2.2 envTagFail exJobPng rfl⟩

/-- C3 (code behaviour at the failing input): a plain-text job — no visual
content processed — still gets `width = Some(224)` and `height = Some(224)`
in its emitted record; indeed every emitted record carries them. -/
theorem C3_dims_always_present :
    (processJob envText exJob).media_type = "text/plain" ∧
    (processJob envText exJob).tags = [] ∧
    (processJob envText exJob).nsfw_score = none ∧
    (processJob envText exJob).width = some 224 ∧
    (processJob envText exJob).height = some 224 ∧
    (∀ (env : JobEnv) (job : MediaJob),
      (processJob env job).width = some 224 ∧
      (processJob env job).height = some 224) := by
  refine ⟨by decide, by decide, by decide, rfl, rfl, ?_⟩
  intro env job
  exact ⟨rfl, rfl⟩
